import Mathlib

/-!
Verification development for `nipype/pipeline/node_wrapper.py` (class
`NodeWrapper`).  The Python source is shallowly embedded: Python values are
the inductive `NW.Value`, the interface's mutable input mapping (`Bunch`,
defined in the external module `nipype.interfaces.base`) is an association
list with Python-dict assignment semantics, the filesystem is a list of
existing file paths, and the external collaborators (the wrapped interface,
the file-staging utilities of `nipype.utils.filemanip`, `hashlib.md5`,
`copy.deepcopy`, `tempfile.mkdtemp`) are either parameters of the model
(`NW.Collab`) or concrete functions modelled from the specification, as
documented at each definition.  `NodeWrapper.run` and
`NodeWrapper._run_interface` are translated statement by statement; the
observable effects (directory cleaning, staging, interface execution,
output aggregation, marker writing) are additionally recorded in an event
trace so that ordering properties can be stated.
-/

namespace NW

/-- Embedded Python values, as far as `NodeWrapper` inspects them: `None`,
strings (file names), numbers, booleans, and (possibly nested) lists.
The code only ever distinguishes `None`, `list` and "everything else". -/
inductive Value where
  | pynone : Value
  | str : String → Value
  | int : Int → Value
  | bool : Bool → Value
  | list : List Value → Value

mutual

/-- Rendering of a single value inside the serialized input state
(`str(self.inputs)` in `hash_inputs` and in the marker-file content).
The precise text is irrelevant to every claim; only determinism and
canonicity of the overall serialization matter. -/
def valueStr : Value → String
  | Value.pynone => "None"
  | Value.str s => "'" ++ s ++ "'"
  | Value.int n => toString n
  | Value.bool b => toString b
  | Value.list vs => "[" ++ valueStrList vs ++ "]"

/-- Rendering of a list of values, comma separated. -/
def valueStrList : List Value → String
  | [] => ""
  | [v] => valueStr v
  | v :: w :: rest => valueStr v ++ ", " ++ valueStrList (w :: rest)

end

/-- The interface's input mapping.  `Bunch` itself lives in
`nipype.interfaces.base` (outside the sources under verification); here it
is an association list from parameter names to values. -/
abbrev Bunch := List (String × Value)

/-- Python-dict assignment `inputs[k] = v`: any previous binding of `k` is
replaced, so we drop all entries for `k` and record the new one. -/
def Bunch.set (b : Bunch) (k : String) (v : Value) : Bunch :=
  b.filter (fun kv => !(kv.1 == k)) ++ [(k, v)]

/-- Raw lookup of a key (present or not). -/
def Bunch.find (b : Bunch) (k : String) : Option Value :=
  List.lookup k b

/-- Reading `inputs[k]`.  Unset interface inputs read as `None` (the code
relies on this: `files = self.inputs[info.key]; if files is not None`). -/
def Bunch.get (b : Bunch) (k : String) : Value :=
  (Bunch.find b k).getD Value.pynone

/-- One serialized `key = value` entry of the input state. -/
def entryStr (kv : String × Value) : String :=
  kv.1 ++ " = " ++ valueStr kv.2

/-- Order on entries used by the canonical serialization: by key. -/
def keyLE (x y : String × Value) : Prop := x.1 ≤ y.1

instance : DecidableRel keyLE := fun x y => by
  unfold keyLE; infer_instance

instance : IsTotal (String × Value) keyLE :=
  ⟨fun x y => le_total x.1 y.1⟩

instance : IsTrans (String × Value) keyLE :=
  ⟨fun _ _ _ h₁ h₂ => le_trans h₁ h₂⟩

/-- Strict version of the entry order, used only to show the canonical
form is unique. -/
def keyLT (x y : String × Value) : Prop := x.1 < y.1

instance : IsAntisymm (String × Value) keyLT :=
  ⟨fun a _ h1 h2 => absurd (lt_trans h1 h2) (lt_irrefl a.1)⟩

/-- Entries in canonical (key-sorted) order. -/
def canonEntries (b : Bunch) : Bunch :=
  List.insertionSort keyLE b

/-- Modelled from the spec: `str(self.inputs)` — the canonical string
serialization of the interface's full input mapping.  `Bunch.__str__` is
defined in `nipype.interfaces.base`, outside the sources under
verification; the spec requires that "the same logical inputs must always
hash identically regardless of invocation order of dictionary entries,
which the canonical serialization must guarantee", so the serialization
renders entries in key-sorted order. -/
def bunchStr (b : Bunch) : String :=
  String.intercalate "; " ((canonEntries b).map entryStr)

/-- Modelled from the spec: `hashlib.md5(s).hexdigest()` — an external
library primitive.  The claims use only that it is a fixed deterministic
function of the serialized string, so it is modelled as a concrete
131-polynomial rolling hash rendered in hex (collision resistance is
explicitly not security-critical per the spec). -/
def md5hex (s : String) : String :=
  let n : Nat := s.foldl (fun a c => (a * 131 + c.toNat) % (2 ^ 128)) 7
  (Nat.toDigits 16 n).asString

/-- The runtime record of one interface execution (`result.runtime`, a
`Bunch` with at least `returncode` and `stderr`). -/
structure RT where
  returncode : Int
  stderr : String

/-- What `self._interface.run()` returns: a runtime record plus an outputs
mapping (the `interface` field of `InterfaceResult` is an opaque record the
claims never inspect, so it is not modelled). -/
structure SingleResult where
  rt : RT
  outputs : Bunch

/-- `self._result.runtime`: `None` (skip path without iterfield), a single
runtime `Bunch`, or a list of per-element runtimes (iterfield fan-out). -/
inductive Runtime where
  | noneRt : Runtime
  | single : RT → Runtime
  | list : List RT → Runtime

/-- `InterfaceResult` as `NodeWrapper` populates it. -/
structure NResult where
  runtime : Runtime
  outputs : Bunch

/-- `get_input_info()` entries: a file-bearing input key and its
copy-vs-link policy flag. -/
structure InputInfo where
  key : String
  copy : Bool

/-- The external collaborators of one node, specified at their interface
boundary (spec §6): the wrapped interface (type identity, file-bearing
input declaration, execute, aggregate-outputs) and the file-staging
service.  `runOne i b` / `aggregateOne i b` give the result of the `i`-th
execute / aggregate-outputs call when the interface's inputs are `b`. -/
structure Collab where
  cname : String
  mname : String
  input_info : List InputInfo
  runOne : Nat → Bunch → SingleResult
  aggregateOne : Nat → Bunch → Bunch
  copy1 : String → String → Bool → String

/-- The state of a `NodeWrapper` object.  `overwrite` and
`output_directory_base` are `None` unless the node is disk based, exactly
as `__init__` leaves them. -/
structure Node where
  name : String
  disk_based : Bool
  overwrite : Option Bool
  iterfield : List String
  iterables : Bunch
  output_directory_base : Option String
  inputs : Bunch
  result : Option NResult

/-- The configuration-contract violations `__init__` raises:
`Exception('Interface must be provided')` and
`ValueError('Setting base_directory requires a disk based interface')`. -/
inductive InitErr where
  | noInterface : InitErr
  | baseDirNotDiskBased : InitErr

namespace NodeWrapper

/-- `NodeWrapper.__init__`.  The interface argument carries the initial
input mapping `inputs0` of the wrapped interface object (the node never
creates inputs itself).  A raised exception is an `Except.error`; no node
object is produced in that case. -/
def init (interface : Option Collab) (inputs0 : Bunch) (iterables : Bunch)
    (iterfield : List String) (diskbased : Bool)
    (base_directory : Option String) (overwrite : Bool)
    (name : Option String) : Except InitErr Node :=
  match interface with
  | none => Except.error InitErr.noInterface
  | some iface =>
      if !diskbased && base_directory.isSome then
        Except.error InitErr.baseDirNotDiskBased
      else
        Except.ok
          { name := name.getD (iface.cname ++ "." ++ iface.mname)
            disk_based := diskbased
            overwrite := if diskbased then some overwrite else none
            iterfield := iterfield
            iterables := iterables
            output_directory_base := if diskbased then base_directory else none
            inputs := inputs0
            result := none }

/-- `set_input(parameter, val)` restricted to the pure-value view used by
`run`/`_run_interface`: the deep copy of an immutable mathematical value is
the value itself (the aliasing content of `deepcopy` is verified separately
on the heap model below). -/
def set_input (nd : Node) (parameter : String) (v : Value) : Node :=
  { nd with inputs := nd.inputs.set parameter v }

/-- `get_output(parameter)`. -/
def get_output (nd : Node) (parameter : String) : Option Value :=
  match nd.result with
  | some r => some (r.outputs.get parameter)
  | none => none

/-- `hash_inputs()`: md5 of the serialized input mapping. -/
def hash_inputs (nd : Node) : String :=
  md5hex (bunchStr nd.inputs)

end NodeWrapper

/-- Observable effects of one `run()` call, in order of occurrence:
`cleandir(outdir)`, rewriting one file-bearing input to its staged copies
(execute path), lazily re-staging one file (skip path), the `i`-th
`self._interface.run()` call, the `i`-th `aggregate_outputs()` call, and
writing the marker file (path and content). -/
inductive Ev where
  | cleaned : Ev
  | staged : String → Ev
  | skipStaged : String → Ev
  | executed : Nat → Ev
  | aggregated : Nat → Ev
  | wroteMarker : String → String → Ev

/-- The exceptions `run()` can raise after executing: the descriptive
`StandardError` built from the node name, the serialized current inputs and
the captured stderr — or the `AttributeError` that the expression
`self._result.runtime.stderr` itself raises when `runtime` is not a single
runtime record (a Python `list` has no attribute `stderr`). -/
inductive RunErr where
  | standardErr : String → String → String → RunErr
  | attributeErr : String → RunErr

/-- Python's `list.insert(i, x)`: insert at position `i`, or append when
`i ≥ len` (Python clamps, it never fails). -/
def pyInsert (i : Nat) (x : α) (l : List α) : List α :=
  l.take i ++ [x] ++ l.drop i

/-- `itervals` coercion at the top of `_run_interface`: a non-list value
is wrapped into a one-element list and `notlist` remembers that. -/
def coerceIter : Value → List Value × Bool
  | Value.list vs => (vs, false)
  | v => ([v], true)

/-- The `for key,val in outputs.iteritems()` merge of one iteration's
outputs into `self._result.outputs`: `try: outputs[key].insert(i, val)`
succeeds when the key is already bound to a list; any failure (missing key)
resets the binding to `[]` before inserting. -/
def mergeOuts (i : Nat) (acc : Bunch) (outs : Bunch) : Bunch :=
  outs.foldl
    (fun a kv =>
      match Bunch.find a kv.1 with
      | some (Value.list l) => a.set kv.1 (Value.list (pyInsert i kv.2 l))
      | _ => a.set kv.1 (Value.list (pyInsert i kv.2 [])))
    acc

/-- Loop state of the iterfield fan-out: the node (whose inputs are being
rebound), the accumulated `runtime` list, the accumulated outputs mapping
and the accumulated event trace. -/
structure IterAcc where
  nd : Node
  rts : List RT
  outs : Bunch
  tr : List Ev

/-- One iteration of `for i,v in enumerate(itervals)`: bind the iterfield
to `v`, then either execute (`self._interface.run()`, recording
`result.runtime` at position `i`) or aggregate outputs, and merge this
iteration's outputs. -/
def iterStep (C : Collab) (execute : Bool) (field : String)
    (acc : IterAcc) (iv : Nat × Value) : IterAcc :=
  let nd := NodeWrapper.set_input acc.nd field iv.2
  if execute then
    let r := C.runOne iv.1 nd.inputs
    { nd := nd
      rts := pyInsert iv.1 r.rt acc.rts
      outs := mergeOuts iv.1 acc.outs r.outputs
      tr := acc.tr ++ [Ev.executed iv.1] }
  else
    let outs := C.aggregateOne iv.1 nd.inputs
    { nd := nd
      rts := acc.rts
      outs := mergeOuts iv.1 acc.outs outs
      tr := acc.tr ++ [Ev.aggregated iv.1] }

/-- The enumerated fan-out loop. -/
def runIterAux (C : Collab) (execute : Bool) (field : String) :
    Nat → List Value → IterAcc → IterAcc
  | _, [], acc => acc
  | i, v :: rest, acc =>
      runIterAux C execute field (i + 1) rest (iterStep C execute field acc (i, v))

/-- `NodeWrapper._run_interface(execute)`.  With exactly one iterfield the
fan-out loop runs and afterwards the iterfield binding is restored: to
`itervals.pop()` (the last — only — element) when the original value was
not a list, to the full `itervals` list otherwise.  With any other number
of iterfields the interface is executed (or aggregated) exactly once. -/
def runInterface (C : Collab) (execute : Bool) (nd : Node) : Node × List Ev :=
  if nd.iterfield.length = 1 then
    let field := nd.iterfield.headD ""
    let p := coerceIter (nd.inputs.get field)
    let acc := runIterAux C execute field 0 p.1
      { nd := nd, rts := [], outs := [], tr := [] }
    let restored := if p.2 then (p.1.getLast?).getD Value.pynone else Value.list p.1
    let nd' := NodeWrapper.set_input acc.nd field restored
    ({ nd' with result := some { runtime := Runtime.list acc.rts, outputs := acc.outs } },
     acc.tr)
  else
    if execute then
      let r := C.runOne 0 nd.inputs
      ({ nd with result := some { runtime := Runtime.single r.rt, outputs := r.outputs } },
       [Ev.executed 0])
    else
      let outs := C.aggregateOne 0 nd.inputs
      ({ nd with result := some { runtime := Runtime.noneRt, outputs := outs } },
       [Ev.aggregated 0])

/-- The returncode aggregation in `run()`: for a list runtime, fold
`returncode = max(r.returncode, returncode)` starting from `0`; for a
single runtime, its `returncode`.  (`noneRt` never reaches this point:
`run()` only aggregates after `_run_interface(execute=True)`.) -/
def aggRC : Option NResult → Int
  | some r =>
      match r.runtime with
      | Runtime.list rts => rts.foldl (fun acc rt => max rt.returncode acc) 0
      | Runtime.single rt => rt.returncode
      | Runtime.noneRt => 0
  | none => 0

/-- The exception raised on a non-zero returncode.  The message
interpolates `self._result.runtime.stderr`; when `runtime` is the fan-out
list (or `None`) this attribute access itself raises `AttributeError`
before the descriptive `StandardError` can be raised. -/
def mkRunErr (nd : Node) : RunErr :=
  match nd.result with
  | some r =>
      match r.runtime with
      | Runtime.single rt => RunErr.standardErr nd.name (bunchStr nd.inputs) rt.stderr
      | _ => RunErr.attributeErr "stderr"
  | none => RunErr.attributeErr "stderr"

/-- The filesystem, as far as the node observes it: the set (list) of
existing file paths.  Directories are not tracked — `_make_output_dir`
either creates the directory or its `IOError` is swallowed by the bare
`except`, with no effect visible to the claims. -/
abbrev FS := List String

/-- Modelled from the spec: `tempfile.mkdtemp()` — the fresh temporary
root lazily created (and remembered) when no base directory was given. -/
def mkdtempPath : String := "/tmp/mkdtemp0000"

/-- `_output_directory()`: `abspath(join(base, name))`, with the base
defaulting to the `mkdtemp` root (paths are modelled as already absolute). -/
def outputDirectory (nd : Node) : String :=
  (nd.output_directory_base.getD mkdtempPath) ++ "/" ++ nd.name

/-- The inputs as they stand when the hash is taken: after
`self._interface.inputs.cwd = outdir`, before any staging rewrites. -/
def preInputs (nd : Node) : Bunch :=
  nd.inputs.set "cwd" (Value.str (outputDirectory nd))

/-- `inputstr = str(self.inputs)` as captured by `run()` (pre-staging). -/
def inputStrPre (nd : Node) : String :=
  bunchStr (preInputs nd)

/-- The marker file path `<outdir>/_0x<hash>.txt` for the node's current
(pre-staging) inputs. -/
def markerPath (nd : Node) : String :=
  outputDirectory nd ++ "/_0x" ++ md5hex (inputStrPre nd) ++ ".txt"

/-- The decision of `run()`: re-execute iff `self.overwrite or not
os.path.exists(hashfile)`. -/
def cacheMiss (fs : FS) (nd : Node) : Bool :=
  nd.overwrite.getD false || !(fs.contains (markerPath nd))

/-- Does the path `p` lie under the directory prefix `pre`?  Stated on the
underlying character lists so that it composes with string append. -/
def strHasPrefix (pre p : String) : Bool :=
  decide (pre.data <+: p.data)

/-- `cleandir(outdir)` (external `nipype.utils.filemanip`): removes the
files inside the output directory. -/
def cleandirFS (fs : FS) (outdir : String) : FS :=
  fs.filter (fun p => !(strHasPrefix (outdir ++ "/") p))

/-- Modelled from the spec: staging one file path through the File Staging
Service (`copyfiles` of `nipype.utils.filemanip`, external): the staged
copy's path is produced by the collaborator; non-path values are left
alone. -/
def stageOne (C : Collab) (copy : Bool) (outdir : String) : Value → Value
  | Value.str s => Value.str (C.copy1 s outdir copy)
  | v => v

/-- Modelled from the spec: the execute-path staging rewrite
`filename_to_list` / `copyfiles` / `list_to_filename` of one input value,
"preserving whether the original value was a single path or an ordered
sequence of paths" (spec §4.4): a list is staged elementwise to a list,
anything else to a single staged value. -/
def stageValue (C : Collab) (copy : Bool) (outdir : String) : Value → Value
  | Value.list vs => Value.list (vs.map (stageOne C copy outdir))
  | v => stageOne C copy outdir v

/-- One entry of the execute-path staging loop (`for info in
self._interface.get_input_info()`): inputs bound to `None` are skipped,
anything else is staged and the binding rewritten. -/
def stageStep (C : Collab) (outdir : String) (acc : Node × List Ev)
    (info : InputInfo) : Node × List Ev :=
  match acc.1.inputs.get info.key with
  | Value.pynone => acc
  | files =>
      ({ acc.1 with
          inputs := acc.1.inputs.set info.key (stageValue C info.copy outdir files) },
       acc.2 ++ [Ev.staged info.key])

/-- The execute-path staging loop of `run()`: for every declared
file-bearing input whose value is not `None`, stage the files into the
output directory and rewrite the binding to the staged copies. -/
def stageExecute (C : Collab) (outdir : String) (nd : Node) : Node × List Ev :=
  C.input_info.foldl (stageStep C outdir) (nd, [])

/-- `fname_presuffix(f, newpath=outdir)` (external `nipype.utils.filemanip`):
the file's basename relocated under the output directory. -/
def newPathIn (outdir : String) (f : String) : String :=
  outdir ++ "/" ++ (((f.splitOn "/").getLast?).getD f)

/-- One file of the skip-path staging: compute the expected staged
location, copy the file there if it is missing, and return the rewritten
path (non-path values are left alone, as `fname_presuffix` only applies to
file names). -/
def skipStageOne (outdir : String) (st : FS × List Ev) : Value → Value × FS × List Ev
  | Value.str f =>
      let newfile := newPathIn outdir f
      if newfile ∈ st.1 then (Value.str newfile, st)
      else (Value.str newfile, st.1 ++ [newfile], st.2 ++ [Ev.skipStaged newfile])
  | v => (v, st)

/-- One element of the skip-path per-file loop, threading the filesystem
and trace and collecting the rewritten elements. -/
def skipFileStep (outdir : String) (a : List Value × FS × List Ev)
    (f : Value) : List Value × FS × List Ev :=
  let r := skipStageOne outdir a.2 f
  (a.1 ++ [r.1], r.2)

/-- One entry of the skip-path staging loop. -/
def skipStep (_C : Collab) (outdir : String) (acc : Node × FS × List Ev)
    (info : InputInfo) : Node × FS × List Ev :=
  match acc.1.inputs.get info.key with
  | Value.pynone => acc
  | Value.list files =>
      let step := files.foldl (skipFileStep outdir) ([], acc.2)
      ({ acc.1 with inputs := acc.1.inputs.set info.key (Value.list step.1) },
       step.2)
  | f =>
      let r := skipStageOne outdir acc.2 f
      ({ acc.1 with inputs := acc.1.inputs.set info.key r.1 }, r.2)

/-- The skip-path staging loop of `run()`: for every declared file-bearing
input whose value is not `None`, rewrite each file to its expected staged
location under the output directory (repairing missing copies), keeping a
single path single and a list a list, exactly as the `type(files) is not
type([])` branches do. -/
def skipStage (C : Collab) (outdir : String) (fs : FS) (nd : Node) :
    Node × FS × List Ev :=
  C.input_info.foldl (skipStep C outdir) (nd, fs, [])

/-- The outcome of `run()`: the raised exception if any, the node state,
the filesystem, and the event trace. -/
structure RunOut where
  err : Option RunErr
  nd : Node
  fs : FS
  tr : List Ev

/-- The node as the disk-based branch of `run()` prepares it before the
cache decision: the output-directory base resolved and remembered
(`self.output_directory_base = mkdtemp()` when unset), and the
interface's `cwd` input set to the output directory. -/
def diskPrep (nd : Node) : Node :=
  { nd with
      output_directory_base := some (nd.output_directory_base.getD mkdtempPath)
      inputs := preInputs nd }

/-- The node after the execute-path staging loop rewrote its file-bearing
inputs. -/
def stagedNode (C : Collab) (nd : Node) : Node :=
  (stageExecute C (outputDirectory nd) (diskPrep nd)).1

/-- The staging events of the execute path. -/
def stagedTrace (C : Collab) (nd : Node) : List Ev :=
  (stageExecute C (outputDirectory nd) (diskPrep nd)).2

/-- The node state after `_run_interface(execute=True)` on the staged
node (holding `self._result`). -/
def execResultNode (C : Collab) (nd : Node) : Node :=
  (runInterface C true (stagedNode C nd)).1

/-- The execution events of the execute path. -/
def execTrace (C : Collab) (nd : Node) : List Ev :=
  (runInterface C true (stagedNode C nd)).2

/-- The aggregated returncode `run()` checks after executing. -/
def runRC (C : Collab) (nd : Node) : Int :=
  aggRC (execResultNode C nd).result

/-- The node after the skip-path staging repair rewrote its file-bearing
inputs. -/
def skipNode (C : Collab) (fs : FS) (nd : Node) : Node :=
  (skipStage C (outputDirectory nd) fs (diskPrep nd)).1

/-- The filesystem after the skip-path staging repair. -/
def skipFS (C : Collab) (fs : FS) (nd : Node) : FS :=
  (skipStage C (outputDirectory nd) fs (diskPrep nd)).2.1

/-- The lazy-repair staging events of the skip path. -/
def skipTrace (C : Collab) (fs : FS) (nd : Node) : List Ev :=
  (skipStage C (outputDirectory nd) fs (diskPrep nd)).2.2

/-- The node state after `_run_interface(execute=False)` on the skip
path. -/
def aggResultNode (C : Collab) (fs : FS) (nd : Node) : Node :=
  (runInterface C false (skipNode C fs nd)).1

/-- The aggregation events of the skip path. -/
def aggTrace (C : Collab) (fs : FS) (nd : Node) : List Ev :=
  (runInterface C false (skipNode C fs nd)).2

namespace NodeWrapper

/-- `NodeWrapper.run()`.  Disk-based: resolve and remember the output
directory, set the interface's `cwd` input, capture `hashvalue` and
`inputstr` from the current (pre-staging) inputs, and branch on
`self.overwrite or not os.path.exists(hashfile)`.  On the execute path:
clean the directory, stage the file-bearing inputs, run the interface,
and write the marker iff the aggregated returncode is zero, raising
otherwise (the marker's path and content — `hashvalue` and `inputstr` —
were captured before staging).  On the skip path: lazily repair staged
copies and aggregate outputs.  Non-disk-based: execute directly. -/
def run (C : Collab) (fs : FS) (nd : Node) : RunOut :=
  if nd.disk_based then
    if cacheMiss fs nd then
      if runRC C nd = 0 then
        { err := none
          nd := execResultNode C nd
          fs := cleandirFS fs (outputDirectory nd) ++ [markerPath nd]
          tr := Ev.cleaned ::
            (stagedTrace C nd ++ execTrace C nd
              ++ [Ev.wroteMarker (markerPath nd) (inputStrPre nd)]) }
      else
        { err := some (mkRunErr (execResultNode C nd))
          nd := execResultNode C nd
          fs := cleandirFS fs (outputDirectory nd)
          tr := Ev.cleaned :: (stagedTrace C nd ++ execTrace C nd) }
    else
      { err := none
        nd := aggResultNode C fs nd
        fs := skipFS C fs nd
        tr := skipTrace C fs nd ++ aggTrace C fs nd }
  else
    { err := none
      nd := (runInterface C true nd).1
      fs := fs
      tr := (runInterface C true nd).2 }

end NodeWrapper

/-! ## Observables used by the claim statements -/

/-- Is this event an interface-execute call? -/
def isExecEv : Ev → Bool
  | Ev.executed _ => true
  | _ => false

/-- Is this event an `aggregate_outputs()` call? -/
def isAggEv : Ev → Bool
  | Ev.aggregated _ => true
  | _ => false

/-- Is this event the `cleandir` call? -/
def isCleanEv : Ev → Bool
  | Ev.cleaned => true
  | _ => false

/-- Is this event the marker-file write? -/
def isMarkerEv : Ev → Bool
  | Ev.wroteMarker _ _ => true
  | _ => false

/-- Number of interface-execute calls a run performed. -/
def execCount (ro : RunOut) : Nat := ro.tr.countP isExecEv

/-- Number of `aggregate_outputs()` calls a run performed. -/
def aggCount (ro : RunOut) : Nat := ro.tr.countP isAggEv

/-- How many interface calls `_run_interface` makes on a node: one per
element of the coerced iterfield sequence when exactly one iterfield is
set, otherwise exactly one. -/
def fanoutWidth (nd : Node) : Nat :=
  if nd.iterfield.length = 1 then
    (coerceIter (nd.inputs.get (nd.iterfield.headD ""))).1.length
  else 1

/-- The scalar-vs-sequence shape of an input binding: `some n` for a list
of `n` elements, `none` for any non-list (scalar) value. -/
def vshape : Value → Option Nat
  | Value.list vs => some vs.length
  | _ => none

/-- Did the error preserve the descriptive form (node name, inputs,
stderr) the spec requires on failure? -/
def RunErr.isDescriptive : RunErr → Bool
  | RunErr.standardErr _ _ _ => true
  | _ => false

/-- Building an input mapping by a sequence of `inputs[k] = v` assignments
(the "order in which the dictionary entries were set"). -/
def applySets (b : Bunch) (l : List (String × Value)) : Bunch :=
  l.foldl (fun acc kv => acc.set kv.1 kv.2) b

/-- The list a fan-out output key is currently bound to: the bound list,
or `[]` when the key is unbound (the `except:` arm of the merge). -/
def asListD : Option Value → List Value
  | some (Value.list l) => l
  | _ => []

/-- The value a fan-out output key is bound to after the merge, given the
collected per-iteration values: unbound when no iteration produced the
key, the ordered list otherwise. -/
def listOption (cur : List Value) : Option Value :=
  match cur with
  | [] => none
  | l => some (Value.list l)

/-- The sequence of values the fan-out iterations starting at index `i`
produce for output key `k`, in iteration order: iteration `i` binds the
iterfield `f` to its element on top of the inputs `base`, executes (or
aggregates), and contributes the value its outputs bind to `k`, if any. -/
def producedSeq (C : Collab) (ex : Bool) (f : String) (base : Bunch)
    (k : String) : Nat → List Value → List Value
  | _, [] => []
  | i, v :: rest =>
      let outs := if ex then (C.runOne i (base.set f v)).outputs
                  else C.aggregateOne i (base.set f v)
      match List.lookup k outs with
      | some w => w :: producedSeq C ex f base k (i + 1) rest
      | none => producedSeq C ex f base k (i + 1) rest

/-! ## Heap model for `set_input` / `copy.deepcopy` (input isolation)

The pure `Value` view above cannot express aliasing, so `set_input`'s
deep-copy semantics is verified on a small heap model: mutable Python
objects are cells (lists of slots) in a heap addressed by allocation
order, a slot holds an immutable atom or a reference to another cell, and
the value of an object is the tree obtained by following references. -/

/-- The pure value of a Python object graph. -/
inductive PTree where
  | leaf : String → PTree
  | node : List PTree → PTree

mutual

/-- Height of a value tree: the fuel needed to read it back fully. -/
def PTree.height : PTree → Nat
  | PTree.leaf _ => 0
  | PTree.node ts => PTree.heightList ts + 1

/-- Maximum height of a list of trees. -/
def PTree.heightList : List PTree → Nat
  | [] => 0
  | t :: ts => max (PTree.height t) (PTree.heightList ts)

end

/-- One slot of a mutable object: an immutable atom or a reference to
another heap cell. -/
inductive Item where
  | atom : String → Item
  | ref : Nat → Item

/-- A mutable Python object: the list of its slots. -/
abbrev Cell := List Item

/-- The heap: cells addressed by position (allocation order). -/
abbrev Heap := List Cell

/-- Reading the value of an object slot, following references with the
given fuel (any fuel at least the value's height reads it fully). -/
def readItem (h : Heap) : Nat → Item → PTree
  | _, Item.atom s => PTree.leaf s
  | 0, Item.ref _ => PTree.node []
  | fuel + 1, Item.ref a =>
      PTree.node ((h.getD a []).map (fun it => readItem h fuel it))

mutual

/-- Allocating a fresh object graph of value `t`: children cells are
allocated first, then the parent cell referencing them; only fresh
addresses (at or past the current heap end) are ever referenced. -/
def allocTree (h : Heap) : PTree → Heap × Item
  | PTree.leaf s => (h, Item.atom s)
  | PTree.node ts =>
      let p := allocTreeList h ts
      (p.1 ++ [p.2], Item.ref p.1.length)

/-- Allocating a list of sibling object graphs left to right. -/
def allocTreeList (h : Heap) : List PTree → Heap × List Item
  | [] => (h, [])
  | t :: ts =>
      let p := allocTree h t
      let q := allocTreeList p.1 ts
      (q.1, p.2 :: q.2)

end

/-- The second argument of `set_input`: a plain value (a heap object owned
by the caller) or a callable producing a value from supplied arguments. -/
inductive SetVal where
  | plain : Item → SetVal
  | callable : (List PTree → PTree) → SetVal

/-- The mutable state `set_input` acts on in the heap model: the heap and
the node's input bindings (parameter name ↦ heap object). -/
structure HState where
  heap : Heap
  inputs : List (String × Item)

/-- The value `set_input` stores: `val(*args)` when `val` is callable,
otherwise the caller's object's value, read from the heap (fuel
`heap.length` reads any acyclic object completely). -/
def setInputVal (st : HState) (v : SetVal) (args : List PTree) : PTree :=
  match v with
  | SetVal.plain it => readItem st.heap st.heap.length it
  | SetVal.callable g => g args

/-- `set_input(parameter, val, *args)` on the heap model: invoke `val`
with the supplied arguments when it is callable, then store a deep,
independent copy of the produced value under `parameter` — modelled from
the contract of `copy.deepcopy` (Python standard library, external):
allocate a fresh object graph of the same value, sharing no cell with any
pre-existing object. -/
def setInputH (st : HState) (parameter : String) (v : SetVal)
    (args : List PTree) : HState :=
  let p := allocTree st.heap (setInputVal st v args)
  { heap := p.1
    inputs := st.inputs.filter (fun kv => !(kv.1 == parameter))
                ++ [(parameter, p.2)] }

/-- An external in-place mutation of the pre-existing object at address
`b` (e.g. `someMutableValue[i] = x`, `append`, …): its cell is replaced
wholesale. -/
def mutateCell (h : Heap) (b : Nat) (c : Cell) : Heap := h.set b c

/-- Slots whose references all point into the fresh region `[n, ...)`. -/
def ItemGE (n : Nat) : Item → Prop
  | Item.atom _ => True
  | Item.ref a => n ≤ a

/-- Heaps whose cells in the fresh region only reference the fresh
region. -/
def HeapGE (n : Nat) (h : Heap) : Prop :=
  ∀ i, n ≤ i → ∀ it ∈ h.getD i [], ItemGE n it

/-! ## Concrete fixtures for witnesses and counterexamples -/

/-- A successful runtime record. -/
def wRT0 : RT := { returncode := 0, stderr := "" }

/-- A well-behaved concrete interface: one file-bearing input `infile`,
execution succeeds and reports the staged `infile` as `outfile`. -/
def wIface : Collab :=
  { cname := "Realign"
    mname := "spm"
    input_info := [{ key := "infile", copy := true }]
    runOne := fun _ b => { rt := wRT0, outputs := [("outfile", b.get "infile")] }
    aggregateOne := fun _ b => [("outfile", b.get "infile")]
    copy1 := fun f o _ => o ++ "/staged_" ++ f }

/-- An interface whose execution fails (`returncode` 1, stderr "boom"). -/
def wIfaceFail : Collab :=
  { wIface with
      runOne := fun _ _ =>
        { rt := { returncode := 1, stderr := "boom" }, outputs := [] } }

/-- An interface producing output key `k` only from iteration 1 onward. -/
def wIfaceSparse : Collab :=
  { wIface with
      runOne := fun i _ =>
        { rt := wRT0
          outputs := if i = 0 then [] else [("k", Value.int 7)] } }

/-- A disk-based fixture node without iterfield. -/
def wNode : Node :=
  { name := "Realign.spm"
    disk_based := true
    overwrite := some false
    iterfield := []
    iterables := []
    output_directory_base := some "/data"
    inputs := [("infile", Value.str "/raw/f.nii")]
    result := none }

/-- A disk-based fan-out fixture over a two-element `infile` list. -/
def wNodeIter : Node :=
  { wNode with
      iterfield := ["infile"]
      inputs := [("infile", Value.list [Value.str "/raw/f1", Value.str "/raw/f2"])] }

/-- A disk-based fan-out node whose iterfield sequence is empty, with
`overwrite` forced on. -/
def wNodeEmptyIter : Node :=
  { wNode with
      overwrite := some true
      iterfield := ["infile"]
      inputs := [("infile", Value.list [])] }

/-- A disk-based fan-out node (one element) with `overwrite` forced on,
used with the failing interface. -/
def wNodeFail : Node :=
  { wNode with
      overwrite := some true
      iterfield := ["x"]
      inputs := [("x", Value.list [Value.int 1])] }

/-- A (non-disk) node constructed with two iterfield entries. -/
def wNodeTwoIter : Node :=
  { wNode with
      disk_based := false
      overwrite := none
      output_directory_base := none
      iterfield := ["a", "b"] }

/-- A fan-out node over a two-element sequence for the sparse-output
interface. -/
def wNodeSparse : Node :=
  { wNode with
      disk_based := false
      overwrite := none
      output_directory_base := none
      iterfield := ["x"]
      inputs := [("x", Value.list [Value.int 0, Value.int 1])] }

/-- A one-cell heap state: the caller owns a mutable two-element list at
address 0; the node has no inputs yet. -/
def wHState : HState :=
  { heap := [[Item.atom "a", Item.atom "b"]], inputs := [] }

/-! ## Association-list (Bunch) lemmas -/

theorem lookup_append_of_forall_ne {β : Type _} {k : String} :
    ∀ (l r : List (String × β)), (∀ kv ∈ l, kv.1 ≠ k) →
      List.lookup k (l ++ r) = List.lookup k r := by
  intro l r h
  induction l with
  | nil => rfl
  | cons a l ih =>
      have ha : a.1 ≠ k := h a (List.mem_cons_self a l)
      have hk : (k == a.1) = false := by
        simp [beq_eq_false_iff_ne]
        exact fun he => ha he.symm
      simp [List.lookup, hk]
      exact ih (fun kv hkv => h kv (List.mem_cons_of_mem a hkv))

theorem Bunch.find_set_self (b : Bunch) (k : String) (v : Value) :
    Bunch.find (b.set k v) k = some v := by
  unfold Bunch.find Bunch.set
  rw [lookup_append_of_forall_ne]
  · simp [List.lookup]
  · intro kv hkv
    have hmem := List.of_mem_filter hkv
    simp only [Bool.not_eq_true', beq_eq_false_iff_ne] at hmem
    exact hmem

theorem lookup_append_split {β : Type _} (k : String) :
    ∀ l r : List (String × β),
      List.lookup k (l ++ r) =
        (match List.lookup k l with
         | some v => some v
         | none => List.lookup k r) := by
  intro l r
  induction l with
  | nil => rfl
  | cons a l ih =>
      by_cases hka : k = a.1
      · simp [List.lookup, beq_iff_eq.mpr hka]
      · simp [List.lookup, beq_eq_false_iff_ne.mpr hka, ih]

theorem lookup_filter_out_ne {β : Type _} {k k' : String} (h : k' ≠ k) :
    ∀ b : List (String × β),
      List.lookup k' (b.filter (fun kv => !(kv.1 == k))) = List.lookup k' b := by
  intro b
  induction b with
  | nil => rfl
  | cons a b ih =>
      rw [List.filter_cons]
      by_cases hak : a.1 = k
      · have hc : (!(a.1 == k)) = false := by simp [hak]
        rw [hc]
        have hne : (k' == a.1) = false := by
          rw [beq_eq_false_iff_ne, hak]; exact h
        simp only [Bool.false_eq_true, if_false, ih]
        simp [List.lookup, hne]
      · have hc : (!(a.1 == k)) = true := by simp [hak]
        rw [hc]
        simp only [if_true]
        by_cases hka : k' = a.1
        · simp [List.lookup, beq_iff_eq.mpr hka]
        · simp [List.lookup, beq_eq_false_iff_ne.mpr hka, ih]

theorem Bunch.find_set_ne (b : Bunch) {k k' : String} (v : Value)
    (h : k' ≠ k) : Bunch.find (b.set k v) k' = Bunch.find b k' := by
  unfold Bunch.find Bunch.set
  rw [lookup_append_split, lookup_filter_out_ne h]
  cases hl : List.lookup k' b with
  | some w => rfl
  | none => simp [List.lookup, beq_eq_false_iff_ne.mpr h]

theorem Bunch.get_set_self (b : Bunch) (k : String) (v : Value) :
    Bunch.get (b.set k v) k = v := by
  unfold Bunch.get
  rw [Bunch.find_set_self]
  rfl

theorem Bunch.get_set_ne (b : Bunch) {k k' : String} (v : Value)
    (h : k' ≠ k) : Bunch.get (b.set k v) k' = Bunch.get b k' := by
  unfold Bunch.get
  rw [Bunch.find_set_ne _ _ h]

theorem Bunch.set_set_same (b : Bunch) (k : String) (v w : Value) :
    (b.set k v).set k w = b.set k w := by
  unfold Bunch.set
  rw [List.filter_append, List.filter_filter]
  simp

theorem applySets_disjoint :
    ∀ (l : List (String × Value)) (acc : Bunch),
      (∀ kv ∈ acc, kv.1 ∉ l.map Prod.fst) →
      (l.map Prod.fst).Nodup →
      applySets acc l = acc ++ l := by
  intro l
  induction l with
  | nil => intro acc _ _; simp [applySets]
  | cons a l ih =>
      intro acc hdis hnd
      have hset : acc.set a.1 a.2 = acc ++ [a] := by
        unfold Bunch.set
        have hfix : acc.filter (fun kv => !(kv.1 == a.1)) = acc := by
          apply List.filter_eq_self.mpr
          intro kv hkv
          have h2 := hdis kv hkv
          simp only [List.map_cons, List.mem_cons, not_or] at h2
          simp [h2.1]
        rw [hfix]
      have hstep : applySets acc (a :: l) = applySets (acc.set a.1 a.2) l := rfl
      have hnd' := hnd
      rw [List.map_cons] at hnd'
      have hc := List.nodup_cons.mp hnd'
      rw [hstep, hset]
      rw [ih (acc ++ [a]) ?_ ?_]
      · simp
      · intro kv hkv
        rcases List.mem_append.mp hkv with hacc | hone
        · have h2 := hdis kv hacc
          simp only [List.map_cons, List.mem_cons, not_or] at h2
          exact h2.2
        · have : kv = a := by simpa using hone
          subst this
          exact hc.1
      · exact hc.2

theorem applySets_nil_of_nodup (l : List (String × Value))
    (hnd : (l.map Prod.fst).Nodup) : applySets [] l = l := by
  have := applySets_disjoint l [] (by intro kv hkv; cases hkv) hnd
  simpa using this

theorem canonEntries_perm (b : Bunch) : (canonEntries b).Perm b :=
  List.perm_insertionSort keyLE b

theorem canonEntries_sorted (b : Bunch) : List.Sorted keyLE (canonEntries b) :=
  List.sorted_insertionSort keyLE b

theorem canonEntries_sorted_strict {b : Bunch}
    (hnd : (b.map Prod.fst).Nodup) : List.Sorted keyLT (canonEntries b) := by
  have hnd' : ((canonEntries b).map Prod.fst).Nodup := by
    have hperm : ((canonEntries b).map Prod.fst).Perm (b.map Prod.fst) :=
      (canonEntries_perm b).map Prod.fst
    exact (List.Perm.nodup_iff hperm).mpr hnd
  have hpair : (canonEntries b).Pairwise (fun x y => x.1 ≠ y.1) :=
    List.pairwise_map.mp hnd'
  have hboth := (canonEntries_sorted b).and hpair
  exact hboth.imp (fun h => lt_of_le_of_ne h.1 h.2)

theorem canonEntries_eq_of_perm {l₁ l₂ : Bunch} (hp : l₁.Perm l₂)
    (hnd : (l₁.map Prod.fst).Nodup) : canonEntries l₁ = canonEntries l₂ := by
  have p1 : (canonEntries l₁).Perm (canonEntries l₂) :=
    ((canonEntries_perm l₁).trans hp).trans (canonEntries_perm l₂).symm
  have hnd2 : (l₂.map Prod.fst).Nodup :=
    (List.Perm.nodup_iff (hp.map Prod.fst)).mp hnd
  exact List.eq_of_perm_of_sorted p1
    (canonEntries_sorted_strict hnd) (canonEntries_sorted_strict hnd2)

theorem bunchStr_eq_of_perm {l₁ l₂ : Bunch} (hp : l₁.Perm l₂)
    (hnd : (l₁.map Prod.fst).Nodup) : bunchStr l₁ = bunchStr l₂ := by
  unfold bunchStr
  rw [canonEntries_eq_of_perm hp hnd]

/-! ## Trace lemmas for the fan-out loop -/

theorem runIterAux_countP (C : Collab) (ex : Bool) (f : String)
    (p : Ev → Bool) (be ba : Bool)
    (he : ∀ n, p (Ev.executed n) = be) (ha : ∀ n, p (Ev.aggregated n) = ba) :
    ∀ (vs : List Value) (i : Nat) (acc : IterAcc),
      ((runIterAux C ex f i vs acc).tr.countP p)
        = acc.tr.countP p
          + vs.length * (if ex then (if be then 1 else 0) else (if ba then 1 else 0)) := by
  intro vs
  induction vs with
  | nil => intro i acc; simp [runIterAux]
  | cons v vs ih =>
      intro i acc
      have hstep : runIterAux C ex f i (v :: vs) acc
          = runIterAux C ex f (i + 1) vs (iterStep C ex f acc (i, v)) := rfl
      rw [hstep, ih]
      cases ex with
      | true =>
          simp only [iterStep, if_true, List.countP_append]
          have : List.countP p [Ev.executed i] = if be then 1 else 0 := by
            cases hbe : be <;> simp [List.countP, List.countP.go, he i, hbe]
          simp only [this, List.length_cons]
          ring
      | false =>
          simp only [iterStep, Bool.false_eq_true, if_false, List.countP_append]
          have : List.countP p [Ev.aggregated i] = if ba then 1 else 0 := by
            cases hba : ba <;> simp [List.countP, List.countP.go, ha i, hba]
          simp only [this, List.length_cons]
          ring

theorem runIterAux_nd_eta (C : Collab) (ex : Bool) (f : String) :
    ∀ (vs : List Value) (i : Nat) (acc : IterAcc),
      (runIterAux C ex f i vs acc).nd
        = { acc.nd with inputs := (runIterAux C ex f i vs acc).nd.inputs } := by
  intro vs
  induction vs with
  | nil => intro i acc; rfl
  | cons v vs ih =>
      intro i acc
      have hstep : runIterAux C ex f i (v :: vs) acc
          = runIterAux C ex f (i + 1) vs (iterStep C ex f acc (i, v)) := rfl
      rw [hstep, ih]
      cases ex <;> rfl

theorem runInterface_countExec (C : Collab) (ex : Bool) (nd : Node) :
    (runInterface C ex nd).2.countP isExecEv = if ex then fanoutWidth nd else 0 := by
  unfold runInterface fanoutWidth
  by_cases h : nd.iterfield.length = 1
  · simp only [h, if_true]
    rw [runIterAux_countP C ex _ isExecEv true false (fun _ => rfl) (fun _ => rfl)]
    cases ex <;> simp
  · simp only [h, if_false]
    cases ex <;> simp [List.countP, List.countP.go, isExecEv]

theorem runInterface_countAgg (C : Collab) (ex : Bool) (nd : Node) :
    (runInterface C ex nd).2.countP isAggEv = if ex then 0 else fanoutWidth nd := by
  unfold runInterface fanoutWidth
  by_cases h : nd.iterfield.length = 1
  · simp only [h, if_true]
    rw [runIterAux_countP C ex _ isAggEv false true (fun _ => rfl) (fun _ => rfl)]
    cases ex <;> simp
  · simp only [h, if_false]
    cases ex <;> simp [List.countP, List.countP.go, isAggEv]

theorem runInterface_countP_other (C : Collab) (ex : Bool) (nd : Node)
    (p : Ev → Bool) (he : ∀ n, p (Ev.executed n) = false)
    (ha : ∀ n, p (Ev.aggregated n) = false) :
    (runInterface C ex nd).2.countP p = 0 := by
  unfold runInterface
  by_cases h : nd.iterfield.length = 1
  · simp only [h, if_true]
    rw [runIterAux_countP C ex _ p false false he ha]
    cases ex <;> simp
  · simp only [h, if_false]
    cases ex <;> simp [List.countP, List.countP.go, he, ha]

theorem runInterface_nd_eta (C : Collab) (ex : Bool) (nd : Node) :
    (runInterface C ex nd).1
      = { nd with
            inputs := (runInterface C ex nd).1.inputs
            result := (runInterface C ex nd).1.result } := by
  unfold runInterface
  by_cases h : nd.iterfield.length = 1
  · simp only [h, if_true]
    rw [runIterAux_nd_eta]
    rfl
  · simp only [h, if_false]
    cases ex <;> rfl

/-! ## Staging lemmas -/

theorem vshape_stageOne (C : Collab) (c : Bool) (o : String) (v : Value) :
    vshape (stageOne C c o v) = vshape v := by
  cases v <;> simp [stageOne, vshape]

theorem vshape_stageValue (C : Collab) (c : Bool) (o : String) (v : Value) :
    vshape (stageValue C c o v) = vshape v := by
  cases v <;> simp [stageValue, stageOne, vshape]

theorem stageStep_nd (C : Collab) (o : String) (st : Node × List Ev)
    (info : InputInfo) :
    (stageStep C o st info).1
      = { st.1 with inputs := (stageStep C o st info).1.inputs } := by
  unfold stageStep
  cases hv : st.1.inputs.get info.key <;> simp [hv]

theorem stageStep_vshape (C : Collab) (o : String) (st : Node × List Ev)
    (info : InputInfo) (f : String) :
    vshape ((stageStep C o st info).1.inputs.get f)
      = vshape (st.1.inputs.get f) := by
  unfold stageStep
  by_cases hk : f = info.key
  · subst hk
    cases hv : st.1.inputs.get info.key with
    | pynone => simp [hv]
    | str s => simp [hv, Bunch.get_set_self, vshape_stageValue]
    | int n => simp [hv, Bunch.get_set_self, vshape_stageValue]
    | bool b => simp [hv, Bunch.get_set_self, vshape_stageValue]
    | list vs => simp [hv, Bunch.get_set_self, vshape_stageValue]
  · cases hv : st.1.inputs.get info.key <;>
      simp [hv, Bunch.get_set_ne _ _ hk]

theorem stageFold_nd (C : Collab) (o : String) :
    ∀ (infos : List InputInfo) (st : Node × List Ev),
      (infos.foldl (stageStep C o) st).1
        = { st.1 with inputs := (infos.foldl (stageStep C o) st).1.inputs } := by
  intro infos
  induction infos with
  | nil => intro st; rfl
  | cons info infos ih =>
      intro st
      rw [List.foldl_cons, ih]
      rw [stageStep_nd]

theorem stageFold_vshape (C : Collab) (o : String) :
    ∀ (infos : List InputInfo) (st : Node × List Ev) (f : String),
      vshape ((infos.foldl (stageStep C o) st).1.inputs.get f)
        = vshape (st.1.inputs.get f) := by
  intro infos
  induction infos with
  | nil => intro st f; rfl
  | cons info infos ih =>
      intro st f
      rw [List.foldl_cons, ih, stageStep_vshape]

theorem stageFold_countP (C : Collab) (o : String) (p : Ev → Bool)
    (hs : ∀ s, p (Ev.staged s) = false) :
    ∀ (infos : List InputInfo) (st : Node × List Ev),
      (infos.foldl (stageStep C o) st).2.countP p = st.2.countP p := by
  intro infos
  induction infos with
  | nil => intro st; rfl
  | cons info infos ih =>
      intro st
      rw [List.foldl_cons, ih]
      unfold stageStep
      cases hv : st.1.inputs.get info.key <;>
        simp [hv, List.countP_append, List.countP_cons, hs]

/-! ## Skip-path staging lemmas -/

theorem skipStageOne_vshape (o : String) (st : FS × List Ev) (v : Value) :
    vshape (skipStageOne o st v).1 = vshape v := by
  cases v with
  | str f =>
      unfold skipStageOne
      by_cases hc : newPathIn o f ∈ st.1 <;> simp [hc, vshape]
  | pynone => rfl
  | int n => rfl
  | bool b => rfl
  | list vs => rfl

theorem skipStageOne_fs_mem (o : String) (st : FS × List Ev) (v : Value)
    (p : String) (hp : p ∈ st.1) : p ∈ (skipStageOne o st v).2.1 := by
  cases v with
  | str f =>
      unfold skipStageOne
      by_cases hc : newPathIn o f ∈ st.1 <;> simp [hc]
      · exact hp
      · exact Or.inl hp
  | pynone => exact hp
  | int n => exact hp
  | bool b => exact hp
  | list vs => exact hp

theorem skipStageOne_countP (o : String) (st : FS × List Ev) (v : Value)
    (p : Ev → Bool) (hs : ∀ s, p (Ev.skipStaged s) = false) :
    (skipStageOne o st v).2.2.countP p = st.2.countP p := by
  cases v with
  | str f =>
      unfold skipStageOne
      by_cases hc : newPathIn o f ∈ st.1 <;>
        simp [hc, List.countP_append, List.countP_cons, hs]
  | pynone => rfl
  | int n => rfl
  | bool b => rfl
  | list vs => rfl

theorem skipFiles_length (o : String) :
    ∀ (files : List Value) (acc : List Value × FS × List Ev),
      (files.foldl (skipFileStep o) acc).1.length
        = acc.1.length + files.length := by
  intro files
  induction files with
  | nil => intro acc; simp
  | cons f files ih =>
      intro acc
      rw [List.foldl_cons, ih]
      have hstep : (skipFileStep o acc f).1.length = acc.1.length + 1 := by
        unfold skipFileStep
        simp
      rw [hstep]
      simp only [List.length_cons]
      omega

theorem skipFiles_fs_mem (o : String) :
    ∀ (files : List Value) (acc : List Value × FS × List Ev)
      (p : String), p ∈ acc.2.1 → p ∈ (files.foldl (skipFileStep o) acc).2.1 := by
  intro files
  induction files with
  | nil => intro acc p hp; exact hp
  | cons f files ih =>
      intro acc p hp
      rw [List.foldl_cons]
      apply ih
      exact skipStageOne_fs_mem o acc.2 f p hp

theorem skipFiles_countP (o : String) (p : Ev → Bool)
    (hs : ∀ s, p (Ev.skipStaged s) = false) :
    ∀ (files : List Value) (acc : List Value × FS × List Ev),
      (files.foldl (skipFileStep o) acc).2.2.countP p = acc.2.2.countP p := by
  intro files
  induction files with
  | nil => intro acc; rfl
  | cons f files ih =>
      intro acc
      rw [List.foldl_cons, ih]
      exact skipStageOne_countP o acc.2 f p hs

theorem skipStep_nd (C : Collab) (o : String)
    (acc : Node × FS × List Ev) (info : InputInfo) :
    (skipStep C o acc info).1
      = { acc.1 with inputs := (skipStep C o acc info).1.inputs } := by
  unfold skipStep
  cases hv : acc.1.inputs.get info.key <;> simp [hv]

theorem skipStep_vshape (C : Collab) (o : String)
    (acc : Node × FS × List Ev) (info : InputInfo) (f : String) :
    vshape ((skipStep C o acc info).1.inputs.get f)
      = vshape (acc.1.inputs.get f) := by
  unfold skipStep
  by_cases hk : f = info.key
  · subst hk
    cases hv : acc.1.inputs.get info.key with
    | pynone => simp [hv]
    | str s =>
        simp only [hv, Bunch.get_set_self]
        rw [skipStageOne_vshape]
    | int n =>
        simp only [hv, Bunch.get_set_self]
        rw [skipStageOne_vshape]
    | bool b =>
        simp only [hv, Bunch.get_set_self]
        rw [skipStageOne_vshape]
    | list vs =>
        simp only [hv, Bunch.get_set_self]
        simp [vshape, skipFiles_length]
  · cases hv : acc.1.inputs.get info.key <;>
      simp [hv, Bunch.get_set_ne _ _ hk]

theorem skipStep_fs_mem (C : Collab) (o : String)
    (acc : Node × FS × List Ev) (info : InputInfo) (p : String)
    (hp : p ∈ acc.2.1) : p ∈ (skipStep C o acc info).2.1 := by
  unfold skipStep
  cases hv : acc.1.inputs.get info.key with
  | pynone => simpa [hv] using hp
  | str s => simpa [hv] using skipStageOne_fs_mem o acc.2 (Value.str s) p hp
  | int n => simpa [hv] using skipStageOne_fs_mem o acc.2 (Value.int n) p hp
  | bool b => simpa [hv] using skipStageOne_fs_mem o acc.2 (Value.bool b) p hp
  | list vs => simpa [hv] using skipFiles_fs_mem o vs ([], acc.2) p hp

theorem skipStep_countP (C : Collab) (o : String)
    (acc : Node × FS × List Ev) (info : InputInfo) (p : Ev → Bool)
    (hs : ∀ s, p (Ev.skipStaged s) = false) :
    (skipStep C o acc info).2.2.countP p = acc.2.2.countP p := by
  unfold skipStep
  cases hv : acc.1.inputs.get info.key with
  | pynone => simp [hv]
  | str s => simpa [hv] using skipStageOne_countP o acc.2 (Value.str s) p hs
  | int n => simpa [hv] using skipStageOne_countP o acc.2 (Value.int n) p hs
  | bool b => simpa [hv] using skipStageOne_countP o acc.2 (Value.bool b) p hs
  | list vs => simpa [hv] using skipFiles_countP o p hs vs ([], acc.2)

theorem skipFold_nd (C : Collab) (o : String) :
    ∀ (infos : List InputInfo) (acc : Node × FS × List Ev),
      (infos.foldl (skipStep C o) acc).1
        = { acc.1 with inputs := (infos.foldl (skipStep C o) acc).1.inputs } := by
  intro infos
  induction infos with
  | nil => intro acc; rfl
  | cons info infos ih =>
      intro acc
      rw [List.foldl_cons, ih, skipStep_nd]

theorem skipFold_vshape (C : Collab) (o : String) :
    ∀ (infos : List InputInfo) (acc : Node × FS × List Ev) (f : String),
      vshape ((infos.foldl (skipStep C o) acc).1.inputs.get f)
        = vshape (acc.1.inputs.get f) := by
  intro infos
  induction infos with
  | nil => intro acc f; rfl
  | cons info infos ih =>
      intro acc f
      rw [List.foldl_cons, ih, skipStep_vshape]

theorem skipFold_fs_mem (C : Collab) (o : String) :
    ∀ (infos : List InputInfo) (acc : Node × FS × List Ev) (p : String),
      p ∈ acc.2.1 → p ∈ (infos.foldl (skipStep C o) acc).2.1 := by
  intro infos
  induction infos with
  | nil => intro acc p hp; exact hp
  | cons info infos ih =>
      intro acc p hp
      rw [List.foldl_cons]
      exact ih _ p (skipStep_fs_mem C o acc info p hp)

theorem skipFold_countP (C : Collab) (o : String) (p : Ev → Bool)
    (hs : ∀ s, p (Ev.skipStaged s) = false) :
    ∀ (infos : List InputInfo) (acc : Node × FS × List Ev),
      (infos.foldl (skipStep C o) acc).2.2.countP p = acc.2.2.countP p := by
  intro infos
  induction infos with
  | nil => intro acc; rfl
  | cons info infos ih =>
      intro acc
      rw [List.foldl_cons, ih, skipStep_countP C o acc info p hs]

/-! ## `_run_interface` restores the iterfield binding -/

theorem runInterface_restores_iterfield (C : Collab) (ex : Bool) (nd : Node)
    (f : String) (hf : nd.iterfield = [f]) :
    (runInterface C ex nd).1.inputs.get f = nd.inputs.get f := by
  unfold runInterface
  rw [hf]
  simp only [List.length_cons, List.length_nil, List.headD, if_pos]
  cases hv : nd.inputs.get f with
  | pynone => simp [hv, coerceIter, NodeWrapper.set_input, Bunch.get_set_self]
  | str s => simp [hv, coerceIter, NodeWrapper.set_input, Bunch.get_set_self]
  | int n => simp [hv, coerceIter, NodeWrapper.set_input, Bunch.get_set_self]
  | bool b => simp [hv, coerceIter, NodeWrapper.set_input, Bunch.get_set_self]
  | list vs => simp [hv, coerceIter, NodeWrapper.set_input, Bunch.get_set_self]

/-! ## Wrapper lemmas at the `stageExecute` / `skipStage` level -/

theorem stageExecute_nd (C : Collab) (o : String) (nd : Node) :
    (stageExecute C o nd).1
      = { nd with inputs := (stageExecute C o nd).1.inputs } :=
  stageFold_nd C o C.input_info (nd, [])

theorem stageExecute_iterfield (C : Collab) (o : String) (nd : Node) :
    (stageExecute C o nd).1.iterfield = nd.iterfield := by
  rw [stageExecute_nd]

theorem stageExecute_vshape (C : Collab) (o : String) (nd : Node) (f : String) :
    vshape ((stageExecute C o nd).1.inputs.get f) = vshape (nd.inputs.get f) :=
  stageFold_vshape C o C.input_info (nd, []) f

theorem stageExecute_countP (C : Collab) (o : String) (nd : Node)
    (p : Ev → Bool) (hs : ∀ s, p (Ev.staged s) = false) :
    (stageExecute C o nd).2.countP p = 0 :=
  stageFold_countP C o p hs C.input_info (nd, [])

theorem skipStage_nd (C : Collab) (o : String) (fs : FS) (nd : Node) :
    (skipStage C o fs nd).1
      = { nd with inputs := (skipStage C o fs nd).1.inputs } :=
  skipFold_nd C o C.input_info (nd, fs, [])

theorem skipStage_iterfield (C : Collab) (o : String) (fs : FS) (nd : Node) :
    (skipStage C o fs nd).1.iterfield = nd.iterfield := by
  rw [skipStage_nd]

theorem skipStage_vshape (C : Collab) (o : String) (fs : FS) (nd : Node)
    (f : String) :
    vshape ((skipStage C o fs nd).1.inputs.get f) = vshape (nd.inputs.get f) :=
  skipFold_vshape C o C.input_info (nd, fs, []) f

theorem skipStage_fs_mem (C : Collab) (o : String) (fs : FS) (nd : Node)
    (p : String) (hp : p ∈ fs) : p ∈ (skipStage C o fs nd).2.1 :=
  skipFold_fs_mem C o C.input_info (nd, fs, []) p hp

theorem skipStage_countP (C : Collab) (o : String) (fs : FS) (nd : Node)
    (p : Ev → Bool) (hs : ∀ s, p (Ev.skipStaged s) = false) :
    (skipStage C o fs nd).2.2.countP p = 0 :=
  skipFold_countP C o p hs C.input_info (nd, fs, [])

theorem diskPrep_iterfield (nd : Node) : (diskPrep nd).iterfield = nd.iterfield := rfl

theorem diskPrep_get_ne (nd : Node) (f : String) (hcwd : f ≠ "cwd") :
    (diskPrep nd).inputs.get f = nd.inputs.get f := by
  show (preInputs nd).get f = nd.inputs.get f
  unfold preInputs
  rw [Bunch.get_set_ne _ _ hcwd]

theorem stagedNode_iterfield (C : Collab) (nd : Node) :
    (stagedNode C nd).iterfield = nd.iterfield := by
  unfold stagedNode
  rw [stageExecute_iterfield]
  rfl

theorem stagedNode_vshape (C : Collab) (nd : Node) (f : String)
    (hcwd : f ≠ "cwd") :
    vshape ((stagedNode C nd).inputs.get f) = vshape (nd.inputs.get f) := by
  unfold stagedNode
  rw [stageExecute_vshape, diskPrep_get_ne _ _ hcwd]

theorem skipNode_iterfield (C : Collab) (fs : FS) (nd : Node) :
    (skipNode C fs nd).iterfield = nd.iterfield := by
  unfold skipNode
  rw [skipStage_iterfield]
  rfl

theorem skipNode_vshape (C : Collab) (fs : FS) (nd : Node) (f : String)
    (hcwd : f ≠ "cwd") :
    vshape ((skipNode C fs nd).inputs.get f) = vshape (nd.inputs.get f) := by
  unfold skipNode
  rw [skipStage_vshape, diskPrep_get_ne _ _ hcwd]

theorem run_preserves_iterfield_shape (C : Collab) (fs : FS) (nd : Node)
    (f : String) (hf : nd.iterfield = [f]) (hcwd : f ≠ "cwd") :
    vshape ((NodeWrapper.run C fs nd).nd.inputs.get f)
      = vshape (nd.inputs.get f) := by
  unfold NodeWrapper.run
  by_cases hd : nd.disk_based = true
  · simp only [hd, if_true]
    by_cases hm : cacheMiss fs nd = true
    · simp only [hm, if_true]
      by_cases hrc : runRC C nd = 0
      · simp only [hrc, if_true]
        show vshape ((execResultNode C nd).inputs.get f) = _
        unfold execResultNode
        rw [runInterface_restores_iterfield _ _ _ f
          (by rw [stagedNode_iterfield]; exact hf)]
        exact stagedNode_vshape C nd f hcwd
      · simp only [hrc, if_false]
        show vshape ((execResultNode C nd).inputs.get f) = _
        unfold execResultNode
        rw [runInterface_restores_iterfield _ _ _ f
          (by rw [stagedNode_iterfield]; exact hf)]
        exact stagedNode_vshape C nd f hcwd
    · simp only [hm, if_false]
      show vshape ((aggResultNode C fs nd).inputs.get f) = _
      unfold aggResultNode
      rw [runInterface_restores_iterfield _ _ _ f
        (by rw [skipNode_iterfield]; exact hf)]
      exact skipNode_vshape C fs nd f hcwd
  · simp only [hd, if_false]
    show vshape ((runInterface C true nd).1.inputs.get f) = _
    rw [runInterface_restores_iterfield _ _ _ f hf]

/-! ## Claim theorems -/

/-- C5: for every node with iterfield set, after the run the iterfield
input binding has its original shape: `_run_interface` restores the
binding exactly (a scalar back to that scalar, a sequence back to the
full sequence), and a whole `run()` leaves the binding's scalar/sequence
shape (and length) unchanged. -/
theorem claim_C5_iterfield_shape_restored (C : Collab) (ex : Bool) (fs : FS)
    (nd : Node) (f : String) (hf : nd.iterfield = [f]) (hcwd : f ≠ "cwd") :
    (runInterface C ex nd).1.inputs.get f = nd.inputs.get f
    ∧ vshape ((NodeWrapper.run C fs nd).nd.inputs.get f)
        = vshape (nd.inputs.get f) :=
  ⟨runInterface_restores_iterfield C ex nd f hf,
   run_preserves_iterfield_shape C fs nd f hf hcwd⟩

/-- Witness for C5 at a concrete fan-out node. -/
theorem claim_C5_witness :
    wNodeIter.iterfield = ["infile"]
    ∧ ((runInterface wIface true wNodeIter).1.inputs.get "infile"
          = wNodeIter.inputs.get "infile"
       ∧ vshape ((NodeWrapper.run wIface [] wNodeIter).nd.inputs.get "infile")
          = vshape (wNodeIter.inputs.get "infile")) :=
  ⟨rfl, claim_C5_iterfield_shape_restored wIface true [] wNodeIter "infile" rfl
    (by decide)⟩

/-- C4: `hash_inputs()` is deterministic — two calls without intervening
mutation return the same digest — and canonical: logically equal input
mappings hash identically no matter in which order the entries were set. -/
theorem claim_C4_hash_deterministic (nd₁ nd₂ : Node)
    (l₁ l₂ : List (String × Value))
    (h₁ : nd₁.inputs = applySets [] l₁) (h₂ : nd₂.inputs = applySets [] l₂)
    (hp : l₁.Perm l₂) (hnd : (l₁.map Prod.fst).Nodup) :
    NodeWrapper.hash_inputs nd₁ = NodeWrapper.hash_inputs nd₁
    ∧ NodeWrapper.hash_inputs nd₁ = NodeWrapper.hash_inputs nd₂ := by
  refine ⟨rfl, ?_⟩
  unfold NodeWrapper.hash_inputs
  have hnd₂ : (l₂.map Prod.fst).Nodup :=
    (List.Perm.nodup_iff (hp.map Prod.fst)).mp hnd
  rw [h₁, h₂, applySets_nil_of_nodup l₁ hnd, applySets_nil_of_nodup l₂ hnd₂,
    bunchStr_eq_of_perm hp hnd]

/-- Witness for C4: two entries set in either order give equal digests. -/
theorem claim_C4_witness :
    NodeWrapper.hash_inputs
        { wNode with inputs := applySets [] [("a", Value.int 1), ("b", Value.str "x")] }
      = NodeWrapper.hash_inputs
        { wNode with inputs := applySets [] [("b", Value.str "x"), ("a", Value.int 1)] } :=
  (claim_C4_hash_deterministic
    { wNode with inputs := applySets [] [("a", Value.int 1), ("b", Value.str "x")] }
    { wNode with inputs := applySets [] [("b", Value.str "x"), ("a", Value.int 1)] }
    [("a", Value.int 1), ("b", Value.str "x")]
    [("b", Value.str "x"), ("a", Value.int 1)]
    rfl rfl (List.Perm.swap ("b", Value.str "x") ("a", Value.int 1) [])
    (by decide)).2

/-- C7: construction fails immediately — producing no node object — when
no interface is supplied, and when a non-disk-based node is given an
explicit base directory. -/
theorem claim_C7_construction_rejects (inputs0 iterables : Bunch)
    (iterfield : List String) (diskbased : Bool)
    (base_directory : Option String) (overwrite : Bool)
    (name : Option String) :
    NodeWrapper.init none inputs0 iterables iterfield diskbased base_directory
        overwrite name
      = Except.error InitErr.noInterface
    ∧ (∀ iface : Collab, diskbased = false → base_directory.isSome = true →
        NodeWrapper.init (some iface) inputs0 iterables iterfield diskbased
            base_directory overwrite name
          = Except.error InitErr.baseDirNotDiskBased) := by
  constructor
  · rfl
  · intro iface hdb hbase
    unfold NodeWrapper.init
    simp [hdb, hbase]

/-- Witness for C7 at concrete constructor arguments. -/
theorem claim_C7_witness :
    NodeWrapper.init none [] [] [] false none false none
      = Except.error InitErr.noInterface
    ∧ NodeWrapper.init (some wIface) [] [] [] false (some "/data") false none
      = Except.error InitErr.baseDirNotDiskBased :=
  ⟨(claim_C7_construction_rejects [] [] [] false none false none).1,
   (claim_C7_construction_rejects [] [] [] false (some "/data") false none).2
     wIface rfl rfl⟩

/-- C3 counterexample: constructing a node with the two-entry iterfield
`["a", "b"]` does not fail — `__init__` performs no iterfield validation
and returns a node carrying both entries. -/
theorem claim_C3_counterexample :
    NodeWrapper.init (some wIface) [] [] ["a", "b"] false none false none
      = Except.ok
          { name := "Realign.spm"
            disk_based := false
            overwrite := none
            iterfield := ["a", "b"]
            iterables := []
            output_directory_base := none
            inputs := []
            result := none } := rfl

/-- C3 amended: the constructor accepts any iterfield (construction
succeeds whenever an interface is supplied and the base-directory rule is
met, with the iterfield stored verbatim), and at run time an iterfield
with two or more entries is ignored — `_run_interface` takes the
single-execution branch. -/
theorem claim_C3_iterfield_not_checked (iface : Collab)
    (inputs0 iterables : Bunch) (iterfield : List String) (diskbased : Bool)
    (base_directory : Option String) (overwrite : Bool) (name : Option String)
    (hb : diskbased = true ∨ base_directory = none) :
    (∃ nd : Node,
        NodeWrapper.init (some iface) inputs0 iterables iterfield diskbased
            base_directory overwrite name = Except.ok nd
        ∧ nd.iterfield = iterfield)
    ∧ (∀ (C : Collab) (nd : Node), nd.iterfield = iterfield →
        iterfield.length ≠ 1 → (runInterface C true nd).2 = [Ev.executed 0]) := by
  constructor
  · rcases hb with hb | hb
    · subst hb
      exact ⟨_, rfl, rfl⟩
    · subst hb
      cases diskbased with
      | true => exact ⟨_, rfl, rfl⟩
      | false => exact ⟨_, rfl, rfl⟩
  · intro C nd hif hlen
    unfold runInterface
    rw [hif]
    simp [hlen]

/-- Witness for the amended C3: the concrete two-entry construction
succeeds and the two-entry node executes exactly once. -/
theorem claim_C3_witness :
    wNodeTwoIter.iterfield = ["a", "b"]
    ∧ (runInterface wIface true wNodeTwoIter).2 = [Ev.executed 0] :=
  ⟨rfl,
   (claim_C3_iterfield_not_checked wIface [] [] ["a", "b"] false none false none
      (Or.inr rfl)).2 wIface wNodeTwoIter rfl (by decide)⟩

/-! ## Fan-out width through the run pipeline -/

theorem coerceLen_eq_of_vshape {v w : Value} (h : vshape v = vshape w) :
    (coerceIter v).1.length = (coerceIter w).1.length := by
  cases v <;> cases w <;> simp_all [vshape, coerceIter]

theorem fanoutWidth_eq_of (nd' nd : Node) (hif : nd'.iterfield = nd.iterfield)
    (hv : nd.iterfield.length = 1 →
      vshape (nd'.inputs.get (nd.iterfield.headD ""))
        = vshape (nd.inputs.get (nd.iterfield.headD ""))) :
    fanoutWidth nd' = fanoutWidth nd := by
  unfold fanoutWidth
  rw [hif]
  by_cases h : nd.iterfield.length = 1
  · simp only [h, if_true]
    exact coerceLen_eq_of_vshape (hv h)
  · simp [h]

theorem stagedNode_fanoutWidth (C : Collab) (nd : Node)
    (hcwd : ∀ f, nd.iterfield = [f] → f ≠ "cwd") :
    fanoutWidth (stagedNode C nd) = fanoutWidth nd := by
  apply fanoutWidth_eq_of _ _ (stagedNode_iterfield C nd)
  intro hlen
  obtain ⟨f, hf⟩ := List.length_eq_one.mp hlen
  rw [hf]
  exact stagedNode_vshape C nd f (hcwd f hf)

theorem skipNode_fanoutWidth (C : Collab) (fs : FS) (nd : Node)
    (hcwd : ∀ f, nd.iterfield = [f] → f ≠ "cwd") :
    fanoutWidth (skipNode C fs nd) = fanoutWidth nd := by
  apply fanoutWidth_eq_of _ _ (skipNode_iterfield C fs nd)
  intro hlen
  obtain ⟨f, hf⟩ := List.length_eq_one.mp hlen
  rw [hf]
  exact skipNode_vshape C fs nd f (hcwd f hf)

theorem execTrace_countExec (C : Collab) (nd : Node)
    (hcwd : ∀ f, nd.iterfield = [f] → f ≠ "cwd") :
    (execTrace C nd).countP isExecEv = fanoutWidth nd := by
  unfold execTrace
  rw [runInterface_countExec]
  simp [stagedNode_fanoutWidth C nd hcwd]

theorem execTrace_countAgg (C : Collab) (nd : Node) :
    (execTrace C nd).countP isAggEv = 0 := by
  unfold execTrace
  rw [runInterface_countAgg]
  simp

theorem aggTrace_countExec (C : Collab) (fs : FS) (nd : Node) :
    (aggTrace C fs nd).countP isExecEv = 0 := by
  unfold aggTrace
  rw [runInterface_countExec]
  simp

theorem aggTrace_countAgg (C : Collab) (fs : FS) (nd : Node)
    (hcwd : ∀ f, nd.iterfield = [f] → f ≠ "cwd") :
    (aggTrace C fs nd).countP isAggEv = fanoutWidth nd := by
  unfold aggTrace
  rw [runInterface_countAgg]
  simp [skipNode_fanoutWidth C fs nd hcwd]

theorem stagedTrace_countP (C : Collab) (nd : Node) (p : Ev → Bool)
    (hs : ∀ s, p (Ev.staged s) = false) :
    (stagedTrace C nd).countP p = 0 :=
  stageExecute_countP C (outputDirectory nd) (diskPrep nd) p hs

theorem skipTrace_countP (C : Collab) (fs : FS) (nd : Node) (p : Ev → Bool)
    (hs : ∀ s, p (Ev.skipStaged s) = false) :
    (skipTrace C fs nd).countP p = 0 :=
  skipStage_countP C (outputDirectory nd) fs (diskPrep nd) p hs

/-- C1 (amended): for every disk-based node, `run()` takes the execute
path exactly when `overwrite` is true or the marker file is absent — the
interface's execute operation is then called once per element of the
coerced iterfield sequence (so zero times when that sequence is empty, and
exactly once when no single iterfield is set) and `aggregate_outputs` not
at all; in every other case no execute call is performed and
`aggregate_outputs` is called once per element instead. -/
theorem claim_C1_decision_rule (C : Collab) (fs : FS) (nd : Node)
    (hd : nd.disk_based = true)
    (hcwd : ∀ f, nd.iterfield = [f] → f ≠ "cwd") :
    (cacheMiss fs nd = true →
        execCount (NodeWrapper.run C fs nd) = fanoutWidth nd
        ∧ aggCount (NodeWrapper.run C fs nd) = 0)
    ∧ (cacheMiss fs nd = false →
        execCount (NodeWrapper.run C fs nd) = 0
        ∧ aggCount (NodeWrapper.run C fs nd) = fanoutWidth nd) := by
  constructor
  · intro hm
    unfold NodeWrapper.run execCount aggCount
    by_cases hrc : runRC C nd = 0 <;>
      simp [hd, hm, hrc, List.countP_cons, List.countP_append, isExecEv, isAggEv,
        stagedTrace_countP C nd isExecEv (fun _ => rfl),
        stagedTrace_countP C nd isAggEv (fun _ => rfl),
        execTrace_countExec C nd hcwd, execTrace_countAgg C nd]
  · intro hm
    unfold NodeWrapper.run execCount aggCount
    simp [hd, hm, List.countP_append,
      skipTrace_countP C fs nd isExecEv (fun _ => rfl),
      skipTrace_countP C fs nd isAggEv (fun _ => rfl),
      aggTrace_countExec C fs nd, aggTrace_countAgg C fs nd hcwd]

/-- C1 counterexample: a disk-based node whose iterfield sequence is
empty takes the execute path (`overwrite` is true) yet performs zero
interface-execute calls, contradicting "re-executes the interface exactly
when overwrite is true or the marker file does not exist". -/
theorem claim_C1_counterexample :
    wNodeEmptyIter.disk_based = true
    ∧ cacheMiss [] wNodeEmptyIter = true
    ∧ execCount (NodeWrapper.run wIface [] wNodeEmptyIter) = 0 :=
  ⟨rfl, rfl, rfl⟩

/-- Witness for the amended C1 at a concrete two-element fan-out node. -/
theorem claim_C1_witness :
    wNodeIter.disk_based = true
    ∧ cacheMiss [] wNodeIter = true
    ∧ fanoutWidth wNodeIter = 2
    ∧ execCount (NodeWrapper.run wIface [] wNodeIter) = fanoutWidth wNodeIter
    ∧ aggCount (NodeWrapper.run wIface [] wNodeIter) = 0 := by
  refine ⟨rfl, rfl, rfl, ?_, ?_⟩
  · refine ((claim_C1_decision_rule wIface [] wNodeIter rfl ?_).1 rfl).1
    intro f h
    have h' : ["infile"] = [f] := h
    simp at h'
    subst h'
    decide
  · refine ((claim_C1_decision_rule wIface [] wNodeIter rfl ?_).1 rfl).2
    intro f h
    have h' : ["infile"] = [f] := h
    simp at h'
    subst h'
    decide

/-! ## Cleaning (C8) -/

theorem mem_cleandirFS {fs : FS} {o p : String} :
    p ∈ cleandirFS fs o ↔ p ∈ fs ∧ strHasPrefix (o ++ "/") p = false := by
  unfold cleandirFS
  simp [List.mem_filter]

theorem execTrace_countP (C : Collab) (nd : Node) (p : Ev → Bool)
    (he : ∀ n, p (Ev.executed n) = false)
    (ha : ∀ n, p (Ev.aggregated n) = false) :
    (execTrace C nd).countP p = 0 :=
  runInterface_countP_other C true (stagedNode C nd) p he ha

theorem aggTrace_countP (C : Collab) (fs : FS) (nd : Node) (p : Ev → Bool)
    (he : ∀ n, p (Ev.executed n) = false)
    (ha : ∀ n, p (Ev.aggregated n) = false) :
    (aggTrace C fs nd).countP p = 0 :=
  runInterface_countP_other C false (skipNode C fs nd) p he ha

theorem skipFS_mem (C : Collab) (fs : FS) (nd : Node) (p : String)
    (hp : p ∈ fs) : p ∈ skipFS C fs nd :=
  skipStage_fs_mem C (outputDirectory nd) fs (diskPrep nd) p hp

/-- C8: the output directory is cleaned of prior contents exactly on the
cache-miss (execute) path, and before any re-staging (the `cleandir` event
heads the trace); on the cache-hit (skip) path no cleaning happens and
every pre-existing file survives. -/
theorem claim_C8_cleandir_exactly_on_miss (C : Collab) (fs : FS) (nd : Node)
    (hd : nd.disk_based = true) :
    (cacheMiss fs nd = true →
        (NodeWrapper.run C fs nd).tr.head? = some Ev.cleaned
        ∧ (NodeWrapper.run C fs nd).tr.countP isCleanEv = 1
        ∧ ∀ p ∈ fs, strHasPrefix (outputDirectory nd ++ "/") p = true →
            p ∈ (NodeWrapper.run C fs nd).fs → p = markerPath nd)
    ∧ (cacheMiss fs nd = false →
        (NodeWrapper.run C fs nd).tr.countP isCleanEv = 0
        ∧ ∀ p ∈ fs, p ∈ (NodeWrapper.run C fs nd).fs) := by
  constructor
  · intro hm
    by_cases hrc : runRC C nd = 0
    · refine ⟨?_, ?_, ?_⟩
      · simp [NodeWrapper.run, hd, hm, hrc]
      · simp [NodeWrapper.run, hd, hm, hrc, List.countP_cons, List.countP_append,
          isCleanEv, stagedTrace_countP C nd isCleanEv (fun _ => rfl),
          execTrace_countP C nd isCleanEv (fun _ => rfl) (fun _ => rfl)]
      · intro p hp hpre hmem
        simp only [NodeWrapper.run, hd, hm, hrc, if_true] at hmem
        simp only [List.mem_append] at hmem
        rcases hmem with hmem | hmem
        · exact absurd (mem_cleandirFS.mp hmem).2 (by rw [hpre]; simp)
        · simpa using hmem
    · refine ⟨?_, ?_, ?_⟩
      · simp [NodeWrapper.run, hd, hm, hrc]
      · simp [NodeWrapper.run, hd, hm, hrc, List.countP_cons, List.countP_append,
          isCleanEv, stagedTrace_countP C nd isCleanEv (fun _ => rfl),
          execTrace_countP C nd isCleanEv (fun _ => rfl) (fun _ => rfl)]
      · intro p hp hpre hmem
        simp only [NodeWrapper.run, hd, hm, hrc, if_true, if_false] at hmem
        exact absurd (mem_cleandirFS.mp hmem).2 (by rw [hpre]; simp)
  · intro hm
    constructor
    · simp [NodeWrapper.run, hd, hm, List.countP_append,
        skipTrace_countP C fs nd isCleanEv (fun _ => rfl),
        aggTrace_countP C fs nd isCleanEv (fun _ => rfl) (fun _ => rfl)]
    · intro p hp
      simp only [NodeWrapper.run, hd, hm, if_true, if_false]
      exact skipFS_mem C fs nd p hp

/-- Witness for C8 at a concrete disk-based node on the miss path. -/
theorem claim_C8_witness :
    wNode.disk_based = true
    ∧ cacheMiss [] wNode = true
    ∧ (NodeWrapper.run wIface [] wNode).tr.head? = some Ev.cleaned
    ∧ (NodeWrapper.run wIface [] wNode).tr.countP isCleanEv = 1 := by
  refine ⟨rfl, rfl, ?_, ?_⟩
  · exact ((claim_C8_cleandir_exactly_on_miss wIface [] wNode rfl).1 rfl).1
  · exact ((claim_C8_cleandir_exactly_on_miss wIface [] wNode rfl).1 rfl).2.1

/-! ## Returncode aggregation (C10, C2) -/

theorem pyInsert_mem {α : Type _} {y x : α} {i : Nat} {l : List α}
    (h : y ∈ pyInsert i x l) : y = x ∨ y ∈ l := by
  unfold pyInsert at h
  rcases List.mem_append.mp h with h1 | h2
  · rcases List.mem_append.mp h1 with ha | hb
    · exact Or.inr (List.take_subset i l ha)
    · simp only [List.mem_singleton] at hb
      exact Or.inl hb
  · exact Or.inr (List.drop_subset i l h2)

theorem runIterAux_rts_mem (C : Collab) (f : String) :
    ∀ (vs : List Value) (i : Nat) (acc : IterAcc) (rt : RT),
      rt ∈ (runIterAux C true f i vs acc).rts →
      rt ∈ acc.rts ∨ ∃ j b, rt = (C.runOne j b).rt := by
  intro vs
  induction vs with
  | nil => intro i acc rt h; exact Or.inl h
  | cons v vs ih =>
      intro i acc rt h
      have hstep : runIterAux C true f i (v :: vs) acc
          = runIterAux C true f (i + 1) vs (iterStep C true f acc (i, v)) := rfl
      rw [hstep] at h
      rcases ih (i + 1) _ rt h with h1 | h2
      · have h1' : rt ∈ pyInsert i
            (C.runOne i (NodeWrapper.set_input acc.nd f v).inputs).rt acc.rts := by
          simpa [iterStep] using h1
        rcases pyInsert_mem h1' with he | hmem
        · exact Or.inr ⟨i, _, he⟩
        · exact Or.inl hmem
      · exact Or.inr h2

theorem foldl_max_zero :
    ∀ rts : List RT, (∀ rt ∈ rts, rt.returncode = 0) →
      rts.foldl (fun acc rt => max rt.returncode acc) 0 = 0 := by
  intro rts
  induction rts with
  | nil => intro _; rfl
  | cons rt rts ih =>
      intro h
      rw [List.foldl_cons, h rt (List.mem_cons_self rt rts)]
      simp only [max_self]
      exact ih (fun r hr => h r (List.mem_cons_of_mem rt hr))

theorem aggRC_runInterface_zero (C : Collab) (nd : Node)
    (hok : ∀ i b, (C.runOne i b).rt.returncode = 0) :
    aggRC (runInterface C true nd).1.result = 0 := by
  unfold runInterface
  by_cases h : nd.iterfield.length = 1
  · simp only [h, if_true]
    unfold aggRC
    apply foldl_max_zero
    intro rt hrt
    rcases runIterAux_rts_mem C _ _ 0 _ rt hrt with h1 | h2
    · cases h1
    · obtain ⟨j, b, he⟩ := h2
      rw [he]
      exact hok j b
  · simp only [h, if_false, if_true]
    unfold aggRC
    exact hok 0 nd.inputs

/-- C10: the marker file's path (the hash) and its content (the
serialized inputs) are both captured from the inputs as they stand after
`cwd` is set and before the staging loop rewrites the file-bearing
bindings: the written marker event equals
`wroteMarker (markerPath nd) (inputStrPre nd)`, and both fields are
functions of the node's pre-staging inputs alone — for every collaborator
(in particular, for every staging behaviour `copy1`). -/
theorem claim_C10_marker_prestaging (C : Collab) (fs : FS) (nd : Node)
    (hd : nd.disk_based = true) (hm : cacheMiss fs nd = true)
    (hok : ∀ i b, (C.runOne i b).rt.returncode = 0) :
    Ev.wroteMarker (markerPath nd) (inputStrPre nd) ∈ (NodeWrapper.run C fs nd).tr
    ∧ markerPath nd
        = outputDirectory nd ++ "/_0x" ++ md5hex (bunchStr (preInputs nd)) ++ ".txt"
    ∧ inputStrPre nd = bunchStr (preInputs nd) := by
  have hrc : runRC C nd = 0 := aggRC_runInterface_zero C (stagedNode C nd) hok
  refine ⟨?_, rfl, rfl⟩
  simp [NodeWrapper.run, hd, hm, hrc]

/-- Witness for C10 at a concrete always-succeeding node. -/
theorem claim_C10_witness :
    wNode.disk_based = true
    ∧ cacheMiss [] wNode = true
    ∧ Ev.wroteMarker (markerPath wNode) (inputStrPre wNode)
        ∈ (NodeWrapper.run wIface [] wNode).tr :=
  ⟨rfl, rfl,
   (claim_C10_marker_prestaging wIface [] wNode rfl rfl (fun _ _ => rfl)).1⟩

theorem markerPath_hasPrefix (nd : Node) :
    strHasPrefix (outputDirectory nd ++ "/") (markerPath nd) = true := by
  unfold strHasPrefix
  rw [decide_eq_true_eq]
  refine ⟨("_0x" ++ md5hex (inputStrPre nd) ++ ".txt").data, ?_⟩
  rw [← String.data_append]
  apply congrArg String.data
  unfold markerPath
  simp only [String.append_assoc]
  congr 1

/-- C2 (amended): on the execute path the marker is written iff the
returncode `run()` aggregates — `max` folded over the per-element codes
starting from `0` for a fan-out list (so an all-negative fan-out is
masked to `0`), the single code otherwise — is zero; on a non-zero
aggregate no marker is written (neither in the trace nor on disk) and
`run()` raises: the descriptive condition naming the node, its current
inputs and the captured stderr when the runtime record is single, but the
bare attribute-access failure on `runtime.stderr` when the runtime is the
fan-out list. -/
theorem claim_C2_marker_iff_rc (C : Collab) (fs : FS) (nd : Node)
    (hd : nd.disk_based = true) (hm : cacheMiss fs nd = true) :
    (runRC C nd = 0 →
        (NodeWrapper.run C fs nd).err = none
        ∧ (NodeWrapper.run C fs nd).tr.countP isMarkerEv = 1
        ∧ markerPath nd ∈ (NodeWrapper.run C fs nd).fs)
    ∧ (runRC C nd ≠ 0 →
        (NodeWrapper.run C fs nd).err = some (mkRunErr (execResultNode C nd))
        ∧ (NodeWrapper.run C fs nd).tr.countP isMarkerEv = 0
        ∧ markerPath nd ∉ (NodeWrapper.run C fs nd).fs)
    ∧ (runRC C nd ≠ 0 → ∀ r, (execResultNode C nd).result = some r →
        ((∀ rt, r.runtime = Runtime.single rt →
            (NodeWrapper.run C fs nd).err
              = some (RunErr.standardErr (execResultNode C nd).name
                  (bunchStr (execResultNode C nd).inputs) rt.stderr))
         ∧ (∀ rts, r.runtime = Runtime.list rts →
            (NodeWrapper.run C fs nd).err
              = some (RunErr.attributeErr "stderr")))) := by
  refine ⟨?_, ?_, ?_⟩
  · intro hrc
    refine ⟨?_, ?_, ?_⟩
    · simp [NodeWrapper.run, hd, hm, hrc]
    · simp [NodeWrapper.run, hd, hm, hrc, List.countP_cons, List.countP_append,
        isMarkerEv, stagedTrace_countP C nd isMarkerEv (fun _ => rfl),
        execTrace_countP C nd isMarkerEv (fun _ => rfl) (fun _ => rfl)]
    · simp [NodeWrapper.run, hd, hm, hrc]
  · intro hrc
    refine ⟨?_, ?_, ?_⟩
    · simp [NodeWrapper.run, hd, hm, hrc]
    · simp [NodeWrapper.run, hd, hm, hrc, List.countP_cons, List.countP_append,
        isMarkerEv, stagedTrace_countP C nd isMarkerEv (fun _ => rfl),
        execTrace_countP C nd isMarkerEv (fun _ => rfl) (fun _ => rfl)]
    · intro hmem
      simp only [NodeWrapper.run, hd, hm, hrc, if_true, if_false] at hmem
      exact absurd (mem_cleandirFS.mp hmem).2 (by simp [markerPath_hasPrefix])
  · intro hrc r hr
    have herr : (NodeWrapper.run C fs nd).err
        = some (mkRunErr (execResultNode C nd)) := by
      simp [NodeWrapper.run, hd, hm, hrc]
    constructor
    · intro rt hrt
      rw [herr]
      simp [mkRunErr, hr, hrt]
    · intro rts hrt
      rw [herr]
      simp [mkRunErr, hr, hrt]

/-- C2 counterexample: a one-element fan-out whose element fails
(returncode 1) makes `run()` raise the attribute-access error, not a
condition naming the node, its inputs and the stderr. -/
theorem claim_C2_counterexample :
    (NodeWrapper.run wIfaceFail [] wNodeFail).err
        = some (RunErr.attributeErr "stderr")
    ∧ ((NodeWrapper.run wIfaceFail [] wNodeFail).err.map RunErr.isDescriptive)
        = some false
    ∧ runRC wIfaceFail wNodeFail = 1 :=
  ⟨rfl, rfl, rfl⟩

/-- Witness for the amended C2 on the failing branch. -/
theorem claim_C2_witness :
    wNodeFail.disk_based = true
    ∧ cacheMiss [] wNodeFail = true
    ∧ (NodeWrapper.run wIfaceFail [] wNodeFail).tr.countP isMarkerEv = 0
    ∧ (NodeWrapper.run wIfaceFail [] wNodeFail).err
        = some (mkRunErr (execResultNode wIfaceFail wNodeFail)) := by
  refine ⟨rfl, rfl, ?_, ?_⟩
  · exact ((claim_C2_marker_iff_rc wIfaceFail [] wNodeFail rfl rfl).2.1
      (by decide)).2.1
  · exact ((claim_C2_marker_iff_rc wIfaceFail [] wNodeFail rfl rfl).2.1
      (by decide)).1

/-! ## Fan-out output merging (C6) -/

theorem pyInsert_ge {α : Type _} (i : Nat) (x : α) (l : List α)
    (h : l.length ≤ i) : pyInsert i x l = l ++ [x] := by
  unfold pyInsert
  rw [List.take_of_length_le h, List.drop_eq_nil_of_le h]
  simp

theorem lookup_eq_none_of_not_mem {k : String} :
    ∀ {l : List (String × Value)}, k ∉ l.map Prod.fst →
      List.lookup k l = none := by
  intro l
  induction l with
  | nil => intro _; rfl
  | cons kv rest ih =>
      intro h
      rw [List.map_cons] at h
      simp only [List.mem_cons, not_or] at h
      simp [List.lookup, beq_eq_false_iff_ne.mpr h.1, ih h.2]

theorem mergeOuts_find (i : Nat) (k : String) :
    ∀ (outs : Bunch) (acc : Bunch), (outs.map Prod.fst).Nodup →
      Bunch.find (mergeOuts i acc outs) k
        = (match List.lookup k outs with
           | none => Bunch.find acc k
           | some w =>
               some (Value.list (pyInsert i w (asListD (Bunch.find acc k))))) := by
  intro outs
  induction outs with
  | nil => intro acc _; rfl
  | cons kv rest ih =>
      intro acc hnd
      rw [List.map_cons] at hnd
      have hc := List.nodup_cons.mp hnd
      have hstep : mergeOuts i acc (kv :: rest)
          = mergeOuts i
              (match Bunch.find acc kv.1 with
               | some (Value.list l) => acc.set kv.1 (Value.list (pyInsert i kv.2 l))
               | _ => acc.set kv.1 (Value.list (pyInsert i kv.2 []))) rest := rfl
      have hacc' :
          (match Bunch.find acc kv.1 with
           | some (Value.list l) => acc.set kv.1 (Value.list (pyInsert i kv.2 l))
           | _ => acc.set kv.1 (Value.list (pyInsert i kv.2 [])))
          = acc.set kv.1 (Value.list (pyInsert i kv.2 (asListD (Bunch.find acc kv.1)))) := by
        cases hfind : Bunch.find acc kv.1 with
        | none => simp [asListD]
        | some v => cases v <;> simp [asListD]
      rw [hstep, hacc', ih _ hc.2]
      by_cases hk : k = kv.1
      · subst hk
        have hrest : List.lookup kv.1 rest = none :=
          lookup_eq_none_of_not_mem hc.1
        rw [hrest]
        have hcons : List.lookup kv.1 (kv :: rest) = some kv.2 := by
          simp [List.lookup]
        rw [hcons, Bunch.find_set_self]
      · have hcons : List.lookup k (kv :: rest) = List.lookup k rest := by
          simp [List.lookup, beq_eq_false_iff_ne.mpr hk]
        rw [hcons, Bunch.find_set_ne _ _ hk]

theorem asListD_match (cur : List Value) :
    asListD (listOption cur) = cur := by
  cases cur <;> rfl

theorem listOption_append_one (cur : List Value) (w : Value) :
    listOption (cur ++ [w]) = some (Value.list (cur ++ [w])) := by
  cases cur <;> rfl

theorem runIterAux_outs (C : Collab) (ex : Bool) (f : String) (base : Bunch)
    (k : String)
    (h1 : ∀ i b, ((C.runOne i b).outputs.map Prod.fst).Nodup)
    (h2 : ∀ i b, ((C.aggregateOne i b).map Prod.fst).Nodup) :
    ∀ (vs : List Value) (i : Nat) (acc : IterAcc) (cur : List Value),
      (∀ v, acc.nd.inputs.set f v = base.set f v) →
      Bunch.find acc.outs k = listOption cur →
      cur.length ≤ i →
      Bunch.find (runIterAux C ex f i vs acc).outs k
        = listOption (cur ++ producedSeq C ex f base k i vs) := by
  intro vs
  induction vs with
  | nil =>
      intro i acc cur hbase hcur hlen
      simpa [runIterAux, producedSeq] using hcur
  | cons v vs ih =>
      intro i acc cur hbase hcur hlen
      have hstep : runIterAux C ex f i (v :: vs) acc
          = runIterAux C ex f (i + 1) vs (iterStep C ex f acc (i, v)) := rfl
      rw [hstep]
      have hin : (NodeWrapper.set_input acc.nd f v).inputs = base.set f v := hbase v
      cases ex with
      | true =>
          have hout : (iterStep C true f acc (i, v)).outs
              = mergeOuts i acc.outs (C.runOne i (base.set f v)).outputs := by
            show mergeOuts i acc.outs
                (C.runOne i (NodeWrapper.set_input acc.nd f v).inputs).outputs = _
            rw [hin]
          have hbase' : ∀ v',
              (iterStep C true f acc (i, v)).nd.inputs.set f v' = base.set f v' := by
            intro v'
            show (acc.nd.inputs.set f v).set f v' = _
            rw [Bunch.set_set_same]
            exact hbase v'
          cases hlook : List.lookup k (C.runOne i (base.set f v)).outputs with
          | none =>
              have hcur' : Bunch.find (iterStep C true f acc (i, v)).outs k
                  = listOption cur := by
                rw [hout, mergeOuts_find i k _ _ (h1 i (base.set f v)), hlook]
                exact hcur
              have hres := ih (i + 1) (iterStep C true f acc (i, v)) cur hbase' hcur'
                (Nat.le_succ_of_le hlen)
              rw [hres]
              have hps : producedSeq C true f base k i (v :: vs)
                  = producedSeq C true f base k (i + 1) vs := by
                simp only [producedSeq, if_true]
                rw [hlook]
              rw [hps]
          | some w =>
              have hcur' : Bunch.find (iterStep C true f acc (i, v)).outs k
                  = listOption (cur ++ [w]) := by
                rw [hout, mergeOuts_find i k _ _ (h1 i (base.set f v)), hlook]
                show some (Value.list (pyInsert i w (asListD (Bunch.find acc.outs k)))) = _
                rw [hcur, asListD_match, pyInsert_ge i w cur hlen,
                  listOption_append_one]
              have hlen' : (cur ++ [w]).length ≤ i + 1 := by
                simp only [List.length_append, List.length_cons, List.length_nil]
                omega
              have hres := ih (i + 1) (iterStep C true f acc (i, v)) (cur ++ [w])
                hbase' hcur' hlen'
              rw [hres]
              have hps : producedSeq C true f base k i (v :: vs)
                  = w :: producedSeq C true f base k (i + 1) vs := by
                simp only [producedSeq, if_true]
                rw [hlook]
              rw [hps]
              congr 1
              simp
      | false =>
          have hout : (iterStep C false f acc (i, v)).outs
              = mergeOuts i acc.outs (C.aggregateOne i (base.set f v)) := by
            show mergeOuts i acc.outs
                (C.aggregateOne i (NodeWrapper.set_input acc.nd f v).inputs) = _
            rw [hin]
          have hbase' : ∀ v',
              (iterStep C false f acc (i, v)).nd.inputs.set f v' = base.set f v' := by
            intro v'
            show (acc.nd.inputs.set f v).set f v' = _
            rw [Bunch.set_set_same]
            exact hbase v'
          cases hlook : List.lookup k (C.aggregateOne i (base.set f v)) with
          | none =>
              have hcur' : Bunch.find (iterStep C false f acc (i, v)).outs k
                  = listOption cur := by
                rw [hout, mergeOuts_find i k _ _ (h2 i (base.set f v)), hlook]
                exact hcur
              have hres := ih (i + 1) (iterStep C false f acc (i, v)) cur hbase' hcur'
                (Nat.le_succ_of_le hlen)
              rw [hres]
              have hps : producedSeq C false f base k i (v :: vs)
                  = producedSeq C false f base k (i + 1) vs := by
                simp only [producedSeq, Bool.false_eq_true, if_false]
                rw [hlook]
              rw [hps]
          | some w =>
              have hcur' : Bunch.find (iterStep C false f acc (i, v)).outs k
                  = listOption (cur ++ [w]) := by
                rw [hout, mergeOuts_find i k _ _ (h2 i (base.set f v)), hlook]
                show some (Value.list (pyInsert i w (asListD (Bunch.find acc.outs k)))) = _
                rw [hcur, asListD_match, pyInsert_ge i w cur hlen,
                  listOption_append_one]
              have hlen' : (cur ++ [w]).length ≤ i + 1 := by
                simp only [List.length_append, List.length_cons, List.length_nil]
                omega
              have hres := ih (i + 1) (iterStep C false f acc (i, v)) (cur ++ [w])
                hbase' hcur' hlen'
              rw [hres]
              have hps : producedSeq C false f base k i (v :: vs)
                  = w :: producedSeq C false f base k (i + 1) vs := by
                simp only [producedSeq, Bool.false_eq_true, if_false]
                rw [hlook]
              rw [hps]
              congr 1
              simp

/-- C6 (amended): for a fan-out run over the coerced iterfield sequence,
each output key is bound in the Result to the ordered list of the values
produced by the iterations that actually yielded that key, in iteration
order (created on the key's first occurrence and absent when no iteration
produced it).  When every iteration produces the key, the `i`-th element
comes from the `i`-th iteration; when iterations skip the key, later
values close the gap, so elements keep iteration order but not iteration
indices. -/
theorem claim_C6_fanout_output_order (C : Collab) (ex : Bool) (nd : Node)
    (f k : String) (hf : nd.iterfield = [f])
    (h1 : ∀ i b, ((C.runOne i b).outputs.map Prod.fst).Nodup)
    (h2 : ∀ i b, ((C.aggregateOne i b).map Prod.fst).Nodup) :
    ((runInterface C ex nd).1.result.map (fun r => Bunch.find r.outputs k))
      = some (listOption
          (producedSeq C ex f nd.inputs k 0 (coerceIter (nd.inputs.get f)).1)) := by
  unfold runInterface
  rw [hf]
  simp only [List.length_cons, List.length_nil, List.headD, if_pos]
  show some (Bunch.find (runIterAux C ex f 0 (coerceIter (nd.inputs.get f)).1
      { nd := nd, rts := [], outs := [], tr := [] }).outs k) = _
  rw [runIterAux_outs C ex f nd.inputs k h1 h2 (coerceIter (nd.inputs.get f)).1 0
    { nd := nd, rts := [], outs := [], tr := [] } [] (fun _ => rfl) rfl
    (Nat.le_refl 0)]
  rfl

/-- C6 counterexample: with two iterations where only iteration 1
produces output key `k`, the Result binds `k` to the one-element list
`[7]` — its element 0 comes from iteration 1, not iteration 0, so "the
i-th element coming from the i-th iteration" fails (and the sequence does
not have one element per iteration). -/
theorem claim_C6_counterexample :
    ((runInterface wIfaceSparse true wNodeSparse).1.result.map
        (fun r => Bunch.find r.outputs "k"))
      = some (some (Value.list [Value.int 7]))
    ∧ (coerceIter (wNodeSparse.inputs.get "x")).1.length = 2
    ∧ (wIfaceSparse.runOne 0 wNodeSparse.inputs).outputs = [] :=
  ⟨rfl, rfl, rfl⟩

/-- Witness for the amended C6 on the sparse-output fixture. -/
theorem claim_C6_witness :
    producedSeq wIfaceSparse true "x" wNodeSparse.inputs "k" 0
        (coerceIter (wNodeSparse.inputs.get "x")).1 = [Value.int 7]
    ∧ ((runInterface wIfaceSparse true wNodeSparse).1.result.map
        (fun r => Bunch.find r.outputs "k"))
      = some (listOption
          (producedSeq wIfaceSparse true "x" wNodeSparse.inputs "k" 0
            (coerceIter (wNodeSparse.inputs.get "x")).1)) := by
  refine ⟨rfl, ?_⟩
  exact claim_C6_fanout_output_order wIfaceSparse true wNodeSparse "x" "k" rfl
    (by
      intro i b
      by_cases hi : i = 0 <;> simp [wIfaceSparse, wIface, hi])
    (by intro i b; simp [wIfaceSparse, wIface])

/-! ## Heap-model lemmas (C9) -/

theorem getD_append_boundary {α : Type _} :
    ∀ (l m : List α) (d : α), (l ++ m).getD l.length d = m.getD 0 d := by
  intro l
  induction l with
  | nil => intro m d; rfl
  | cons a l ih => intro m d; exact ih m d

theorem HeapGE_self (h : Heap) : HeapGE h.length h := by
  intro i hi it hit
  rw [List.getD_eq_default _ _ hi] at hit
  cases hit

mutual

theorem allocTree_extends : ∀ (t : PTree) (h : Heap),
    ∃ e, (allocTree h t).1 = h ++ e
  | PTree.leaf _, h => ⟨[], by simp [allocTree]⟩
  | PTree.node ts, h => by
      obtain ⟨e, he⟩ := allocTreeList_extends ts h
      refine ⟨e ++ [(allocTreeList h ts).2], ?_⟩
      show (allocTreeList h ts).1 ++ [(allocTreeList h ts).2] = _
      rw [he, List.append_assoc]

theorem allocTreeList_extends : ∀ (ts : List PTree) (h : Heap),
    ∃ e, (allocTreeList h ts).1 = h ++ e
  | [], h => ⟨[], by simp [allocTreeList]⟩
  | t :: ts, h => by
      obtain ⟨e1, he1⟩ := allocTree_extends t h
      obtain ⟨e2, he2⟩ := allocTreeList_extends ts (allocTree h t).1
      refine ⟨e1 ++ e2, ?_⟩
      show (allocTreeList (allocTree h t).1 ts).1 = _
      rw [he2, he1, List.append_assoc]

end

theorem allocTree_length_le (t : PTree) (h : Heap) :
    h.length ≤ (allocTree h t).1.length := by
  obtain ⟨e, he⟩ := allocTree_extends t h
  rw [he]
  simp

theorem allocTreeList_length_le (ts : List PTree) (h : Heap) :
    h.length ≤ (allocTreeList h ts).1.length := by
  obtain ⟨e, he⟩ := allocTreeList_extends ts h
  rw [he]
  simp

mutual

theorem allocTree_GE : ∀ (t : PTree) (h : Heap) (n : Nat),
    n ≤ h.length → HeapGE n h →
    HeapGE n (allocTree h t).1 ∧ ItemGE n (allocTree h t).2
  | PTree.leaf _, h, n, _, hh => ⟨hh, trivial⟩
  | PTree.node ts, h, n, hn, hh => by
      obtain ⟨hh1, hits⟩ := allocTreeList_GE ts h n hn hh
      constructor
      · intro i hi it hit
        have hit' : it ∈ ((allocTreeList h ts).1 ++ [(allocTreeList h ts).2]).getD i []
            := hit
        clear hit
        rename' hit' => hit
        by_cases hlt : i < (allocTreeList h ts).1.length
        · rw [List.getD_eq_getElem?_getD, List.getElem?_append, if_pos hlt,
            ← List.getD_eq_getElem?_getD] at hit
          exact hh1 i hi it hit
        · by_cases heq : i = (allocTreeList h ts).1.length
          · subst heq
            rw [getD_append_boundary] at hit
            exact hits it hit
          · have hge : ((allocTreeList h ts).1 ++ [(allocTreeList h ts).2]).length ≤ i := by
              simp only [List.length_append, List.length_cons, List.length_nil]
              omega
            rw [List.getD_eq_default _ _ hge] at hit
            cases hit
      · show ItemGE n (Item.ref (allocTreeList h ts).1.length)
        exact le_trans hn (allocTreeList_length_le ts h)

theorem allocTreeList_GE : ∀ (ts : List PTree) (h : Heap) (n : Nat),
    n ≤ h.length → HeapGE n h →
    HeapGE n (allocTreeList h ts).1
      ∧ ∀ it ∈ (allocTreeList h ts).2, ItemGE n it
  | [], _, _, _, hh => ⟨hh, by intro it hit; cases hit⟩
  | t :: ts, h, n, hn, hh => by
      obtain ⟨hh1, hit1⟩ := allocTree_GE t h n hn hh
      obtain ⟨hh2, hits⟩ := allocTreeList_GE ts (allocTree h t).1 n
        (le_trans hn (allocTree_length_le t h)) hh1
      refine ⟨hh2, ?_⟩
      intro it hit
      have hit' : it ∈ (allocTree h t).2 :: (allocTreeList (allocTree h t).1 ts).2 := hit
      rcases List.mem_cons.mp hit' with he | hm
      · rw [he]; exact hit1
      · exact hits it hm

end

theorem readItem_frame (n b : Nat) (c : Cell) (hb : b < n) :
    ∀ (fuel : Nat) (h : Heap) (it : Item), ItemGE n it → HeapGE n h →
      readItem (h.set b c) fuel it = readItem h fuel it := by
  intro fuel
  induction fuel with
  | zero => intro h it _ _; cases it <;> rfl
  | succ fuel ih =>
      intro h it hit hh
      cases it with
      | atom s => rfl
      | ref a =>
          have hna : n ≤ a := hit
          have hne : b ≠ a := by omega
          have hgd : (h.set b c).getD a [] = h.getD a [] := by
            rw [List.getD_eq_getElem?_getD, List.getElem?_set_ne hne,
              ← List.getD_eq_getElem?_getD]
          simp only [readItem]
          rw [hgd]
          apply congrArg
          apply List.map_congr_left
          intro it' hit'
          exact ih h it' (hh a hna it' hit') hh

mutual

theorem allocTree_correct : ∀ (t : PTree) (h : Heap) (ext : Heap) (fuel : Nat),
    PTree.height t ≤ fuel →
    readItem ((allocTree h t).1 ++ ext) fuel (allocTree h t).2 = t
  | PTree.leaf s, h, ext, fuel, _ => by cases fuel <;> rfl
  | PTree.node ts, h, ext, fuel, hf => by
      cases fuel with
      | zero =>
          exfalso
          have : PTree.heightList ts + 1 ≤ 0 := hf
          omega
      | succ fuel =>
          have hft : PTree.heightList ts ≤ fuel := by
            have : PTree.heightList ts + 1 ≤ fuel + 1 := hf
            omega
          have hcell :
              ((((allocTreeList h ts).1 ++ [(allocTreeList h ts).2]) ++ ext).getD
                (allocTreeList h ts).1.length [])
              = (allocTreeList h ts).2 := by
            rw [List.append_assoc, getD_append_boundary]
            rfl
          show readItem (((allocTreeList h ts).1 ++ [(allocTreeList h ts).2]) ++ ext)
              (fuel + 1) (Item.ref (allocTreeList h ts).1.length) = PTree.node ts
          simp only [readItem]
          rw [hcell]
          apply congrArg
          have hrw : ((allocTreeList h ts).1 ++ [(allocTreeList h ts).2]) ++ ext
              = (allocTreeList h ts).1 ++ ([(allocTreeList h ts).2] ++ ext) :=
            List.append_assoc _ _ _
          rw [hrw]
          exact allocTreeList_correct ts h ([(allocTreeList h ts).2] ++ ext) fuel hft

theorem allocTreeList_correct : ∀ (ts : List PTree) (h : Heap) (ext : Heap)
    (fuel : Nat), PTree.heightList ts ≤ fuel →
    ((allocTreeList h ts).2.map (readItem ((allocTreeList h ts).1 ++ ext) fuel)) = ts
  | [], _, _, _, _ => rfl
  | t :: ts, h, ext, fuel, hf => by
      have hht : PTree.height t ≤ fuel :=
        le_trans (le_max_left _ _) hf
      have hhts : PTree.heightList ts ≤ fuel :=
        le_trans (le_max_right _ _) hf
      obtain ⟨e, he⟩ := allocTreeList_extends ts (allocTree h t).1
      show readItem ((allocTreeList (allocTree h t).1 ts).1 ++ ext) fuel (allocTree h t).2
            :: ((allocTreeList (allocTree h t).1 ts).2.map
                (readItem ((allocTreeList (allocTree h t).1 ts).1 ++ ext) fuel))
          = t :: ts
      have hhead : readItem ((allocTreeList (allocTree h t).1 ts).1 ++ ext) fuel
          (allocTree h t).2 = t := by
        rw [he, List.append_assoc]
        exact allocTree_correct t h (e ++ ext) fuel hht
      have htail := allocTreeList_correct ts (allocTree h t).1 ext fuel hhts
      rw [hhead, htail]

end

theorem setInputH_lookup (st : HState) (param : String) (v : SetVal)
    (args : List PTree) :
    List.lookup param (setInputH st param v args).inputs
      = some (allocTree st.heap (setInputVal st v args)).2 := by
  show List.lookup param
      (st.inputs.filter (fun kv => !(kv.1 == param))
        ++ [(param, (allocTree st.heap (setInputVal st v args)).2)])
    = _
  rw [lookup_append_of_forall_ne]
  · simp [List.lookup]
  · intro kv hkv
    have hmem := List.of_mem_filter hkv
    simp only [Bool.not_eq_true', beq_eq_false_iff_ne] at hmem
    exact hmem

/-- C9: `set_input` stores, under the given parameter, a deep and
independent copy of the supplied value, invoking it first with the
supplied arguments when it is callable.  The stored object reads back as
exactly the value that was set (`setInputVal st v args`, which is
`val(*args)` for a callable and the caller's object's value otherwise) —
and any later external in-place mutation of any pre-existing heap object
(in particular of the caller's value and everything reachable from it)
leaves the stored input's value unchanged, at every read depth. -/
theorem claim_C9_set_input_deep_copy (st : HState) (parameter : String)
    (v : SetVal) (args : List PTree) (b : Nat) (c : Cell) (stored : Item)
    (hb : b < st.heap.length)
    (hstored : List.lookup parameter (setInputH st parameter v args).inputs
        = some stored) :
    (∀ fuel, readItem (mutateCell (setInputH st parameter v args).heap b c)
          fuel stored
        = readItem (setInputH st parameter v args).heap fuel stored)
    ∧ (∀ fuel, PTree.height (setInputVal st v args) ≤ fuel →
        readItem (setInputH st parameter v args).heap fuel stored
          = setInputVal st v args) := by
  rw [setInputH_lookup] at hstored
  have hst : stored = (allocTree st.heap (setInputVal st v args)).2 :=
    (Option.some.inj hstored).symm
  have hGE := allocTree_GE (setInputVal st v args) st.heap st.heap.length
    (le_refl _) (HeapGE_self st.heap)
  have hheap : (setInputH st parameter v args).heap
      = (allocTree st.heap (setInputVal st v args)).1 := rfl
  constructor
  · intro fuel
    rw [hheap, hst]
    exact readItem_frame st.heap.length b c hb fuel _ _ hGE.2 hGE.1
  · intro fuel hf
    rw [hheap, hst]
    have hc := allocTree_correct (setInputVal st v args) st.heap [] fuel hf
    rw [List.append_nil] at hc
    exact hc

/-- Witness for C9: the caller's two-element list at address 0 is copied;
mutating the caller's object afterwards does not change what the stored
input reads back to. -/
theorem claim_C9_witness :
    (0 : Nat) < wHState.heap.length
    ∧ List.lookup "x" (setInputH wHState "x" (SetVal.plain (Item.ref 0)) []).inputs
        = some (Item.ref 1)
    ∧ readItem (mutateCell (setInputH wHState "x" (SetVal.plain (Item.ref 0)) []).heap
          0 [Item.atom "z"]) 2 (Item.ref 1)
        = readItem (setInputH wHState "x" (SetVal.plain (Item.ref 0)) []).heap 2
          (Item.ref 1)
    ∧ readItem (setInputH wHState "x" (SetVal.plain (Item.ref 0)) []).heap 2
          (Item.ref 1)
        = setInputVal wHState (SetVal.plain (Item.ref 0)) [] := by
  refine ⟨by decide, rfl, ?_, ?_⟩
  · exact (claim_C9_set_input_deep_copy wHState "x" (SetVal.plain (Item.ref 0)) []
      0 [Item.atom "z"] (Item.ref 1) (by decide) rfl).1 2
  · exact (claim_C9_set_input_deep_copy wHState "x" (SetVal.plain (Item.ref 0)) []
      0 [Item.atom "z"] (Item.ref 1) (by decide) rfl).2 2 (by decide)

end NW
